import Mathlib

/-!
Verification of taskcluster-lib-artifact-go: a shallow embedding of the
integrity-preserving transfer pipeline (prepare.go, request.go, interface.go,
the bounded body reader, and the byte-counting writer) together with proofs
of the specified invariants.

Byte streams are modelled as `List Nat` (each entry one octet), sizes as
`Nat` (the Go code uses int64 counters that only ever accumulate nonnegative
amounts), and SHA-256 is implemented concretely (FIPS 180-4) so that every
digest claim is about the bytes actually fed to the hash.
-/

set_option autoImplicit false

namespace Artifact

/-! ## Byte and word utilities -/

/-- Truncate to a 32-bit word, as Go uint32 arithmetic does. -/
def w32 (x : Nat) : Nat := x % 4294967296

/-- Rotate a 32-bit word right by `n` bits. -/
def rotr (n x : Nat) : Nat := w32 ((x >>> n) ||| (x <<< (32 - n)))

/-- Big-endian bytes of a 32-bit word. -/
def be4 (x : Nat) : List Nat :=
  [x >>> 24 % 256, x >>> 16 % 256, x >>> 8 % 256, x % 256]

/-- Big-endian bytes of a 64-bit word. -/
def be8 (x : Nat) : List Nat :=
  [x >>> 56 % 256, x >>> 48 % 256, x >>> 40 % 256, x >>> 32 % 256,
   x >>> 24 % 256, x >>> 16 % 256, x >>> 8 % 256, x % 256]

/-- Little-endian bytes of a 32-bit word (gzip header and footer fields). -/
def le4 (x : Nat) : List Nat :=
  [x % 256, x >>> 8 % 256, x >>> 16 % 256, x >>> 24 % 256]

/-- Fuel-indexed chunk splitter; the fuel only serves as a structural
termination measure and never runs out when it starts at the stream length. -/
def chunksF : Nat → Nat → List Nat → List (List Nat)
  | 0, _, _ => []
  | _ + 1, _, [] => []
  | _ + 1, 0, _ :: _ => []
  | f + 1, n + 1, a :: t => (a :: t).take (n + 1) :: chunksF f (n + 1) ((a :: t).drop (n + 1))

/-- Split a byte stream into chunks of `n` bytes; every chunk but the last is
full.  This models reading a stream through a fixed-size buffer of `n` bytes:
each step is one successful `Read` call.  `n = 0` yields no chunks (the Go
code never reaches a copy loop with an empty buffer on its validated
paths). -/
def chunks (n : Nat) (l : List Nat) : List (List Nat) :=
  chunksF l.length n l

/-- Concatenation of a list of byte chunks. -/
def joinL : List (List Nat) → List Nat
  | [] => []
  | c :: r => c ++ joinL r

/-! ## SHA-256 (FIPS 180-4), as used via crypto/sha256 in the Go source -/

/-- The 64 SHA-256 round constants of FIPS 180-4 section 4.2.2, in decimal. -/
def sha256K : List Nat :=
  [1116352408, 1899447441, 3049323471, 3921009573, 961987163,
   1508970993, 2453635748, 2870763221, 3624381080, 310598401,
   607225278, 1426881987, 1925078388, 2162078206, 2614888103,
   3248222580, 3835390401, 4022224774, 264347078, 604807628,
   770255983, 1249150122, 1555081692, 1996064986, 2554220882,
   2821834349, 2952996808, 3210313671, 3336571891, 3584528711,
   113926993, 338241895, 666307205, 773529912, 1294757372,
   1396182291, 1695183700, 1986661051, 2177026350, 2456956037,
   2730485921, 2820302411, 3259730800, 3345764771, 3516065817,
   3600352804, 4094571909, 275423344, 430227734, 506948616,
   659060556, 883997877, 958139571, 1322822218, 1537002063,
   1747873779, 1955562222, 2024104815, 2227730452, 2361852424,
   2428436474, 2756734187, 3204031479, 3329325298]

/-- Running hash state: eight 32-bit words. -/
structure Sha256State where
  s0 : Nat
  s1 : Nat
  s2 : Nat
  s3 : Nat
  s4 : Nat
  s5 : Nat
  s6 : Nat
  s7 : Nat
  deriving Repr, DecidableEq

/-- Initial SHA-256 hash state (FIPS 180-4 section 5.3.3, in decimal). -/
def sha256Init : Sha256State :=
  ⟨1779033703, 3144134277, 1013904242, 2773480762,
   1359893119, 2600822924, 528734635, 1541459225⟩

/-- Pad a message per FIPS 180-4: a 0x80 byte, zeros to 56 mod 64, and the
bit length as a 64-bit big-endian integer. -/
def padMsg (msg : List Nat) : List Nat :=
  msg ++ 0x80 :: List.replicate ((119 - msg.length % 64) % 64) 0 ++ be8 (8 * msg.length)

/-- Interpret a 4-byte chunk as a big-endian 32-bit word. -/
def wordOfBytes (c : List Nat) : Nat :=
  c.foldl (fun a x => a * 256 + x % 256) 0

/-- Extend the 16 message words of a block to the 64-word schedule. -/
def extendW : List Nat → Nat → List Nat
  | acc, 0 => acc
  | acc, n + 1 =>
    let i := acc.length
    let x15 := acc.getD (i - 15) 0
    let x2 := acc.getD (i - 2) 0
    let x7 := acc.getD (i - 7) 0
    let x16 := acc.getD (i - 16) 0
    let sa := rotr 7 x15 ^^^ rotr 18 x15 ^^^ (x15 >>> 3)
    let sb := rotr 17 x2 ^^^ rotr 19 x2 ^^^ (x2 >>> 10)
    extendW (acc ++ [w32 (x16 + sa + x7 + sb)]) n

/-- One round of the SHA-256 compression function per (schedule word, constant). -/
def sha256Rounds : List (Nat × Nat) → Sha256State → Sha256State
  | [], st => st
  | (wi, ki) :: rest, ⟨a, b, c, d, e, f, g, h⟩ =>
    let bigS1 := rotr 6 e ^^^ rotr 11 e ^^^ rotr 25 e
    let ch := (e &&& f) ^^^ ((e ^^^ 0xffffffff) &&& g)
    let temp1 := w32 (h + bigS1 + ch + ki + wi)
    let bigS0 := rotr 2 a ^^^ rotr 13 a ^^^ rotr 22 a
    let maj := (a &&& b) ^^^ (a &&& c) ^^^ (b &&& c)
    let temp2 := w32 (bigS0 + maj)
    sha256Rounds rest ⟨w32 (temp1 + temp2), a, b, c, w32 (d + temp1), e, f, g⟩

/-- Process one 64-byte block. -/
def sha256Block (st : Sha256State) (block : List Nat) : Sha256State :=
  let ws := extendW ((chunks 4 block).map wordOfBytes) 48
  let r := sha256Rounds (ws.zip sha256K) st
  ⟨w32 (st.s0 + r.s0), w32 (st.s1 + r.s1), w32 (st.s2 + r.s2), w32 (st.s3 + r.s3),
   w32 (st.s4 + r.s4), w32 (st.s5 + r.s5), w32 (st.s6 + r.s6), w32 (st.s7 + r.s7)⟩

/-- Serialize a hash state to the 32 digest bytes. -/
def digestBytes (st : Sha256State) : List Nat :=
  be4 st.s0 ++ be4 st.s1 ++ be4 st.s2 ++ be4 st.s3 ++
  be4 st.s4 ++ be4 st.s5 ++ be4 st.s6 ++ be4 st.s7

/-- SHA-256 digest (32 bytes) of a byte stream. -/
def sha256 (msg : List Nat) : List Nat :=
  digestBytes ((chunks 64 (padMsg msg)).foldl sha256Block sha256Init)

/-- Lowercase hex character for a value below 16. -/
def hexChar (n : Nat) : Char :=
  if n < 10 then Char.ofNat (48 + n) else Char.ofNat (87 + n)

/-- Lowercase hex characters of a byte stream, two per byte. -/
def hexChars : List Nat → List Char
  | [] => []
  | b :: r => hexChar (b / 16 % 16) :: hexChar (b % 16) :: hexChars r

/-- Lowercase hex encoding of a byte stream, as hex.EncodeToString produces. -/
def toHex (bs : List Nat) : String :=
  String.mk (hexChars bs)

/-! ## Small pieces of the Go standard library the source leans on -/

/-- Decimal digits to a number; fails on a non-digit or on an empty list. -/
def parseDigits : List Char → Option Nat
  | [] => none
  | l => go l 0
where
  go : List Char → Nat → Option Nat
    | [], acc => some acc
    | c :: r, acc =>
      if 48 ≤ c.toNat ∧ c.toNat ≤ 57 then go r (acc * 10 + (c.toNat - 48)) else none

/-- strconv.ParseInt(s, 10, 64): optional sign, decimal digits, 64-bit range. -/
def parseInt64 (s : String) : Option Int :=
  match s.data with
  | '+' :: rest =>
    match parseDigits rest with
    | some n => if n ≤ 9223372036854775807 then some (n : Int) else none
    | none => none
  | '-' :: rest =>
    match parseDigits rest with
    | some n => if n ≤ 9223372036854775808 then some (-(n : Int)) else none
    | none => none
  | l =>
    match parseDigits l with
    | some n => if n ≤ 9223372036854775807 then some (n : Int) else none
    | none => none

/-- Lowercase an ASCII character (header names are ASCII). -/
def lowerChar (c : Char) : Char :=
  if 65 <= c.toNat && c.toNat <= 90 then Char.ofNat (c.toNat + 32) else c

/-- Lowercase a string, for case-insensitive header-name comparison. -/
def lowerStr (s : String) : String :=
  String.mk (s.data.map lowerChar)

/-- Whitespace test of strings.TrimSpace for the ASCII space characters. -/
def isSpaceChar (c : Char) : Bool :=
  decide (c.toNat = 32 || c.toNat = 9 || c.toNat = 10 || c.toNat = 13 || c.toNat = 11 || c.toNat = 12)

/-- strings.TrimSpace: strip leading and trailing whitespace. -/
def trimStr (s : String) : String :=
  String.mk (((s.data.dropWhile isSpaceChar).reverse.dropWhile isSpaceChar).reverse)

/-- http.Header.Get: the first value whose (canonicalized) name matches the
requested name; header-name matching in Go is case-insensitive.  Returns the
empty string when the header is absent. -/
def headerGet (h : List (String × String)) (k : String) : String :=
  match h.find? (fun p => lowerStr p.1 == lowerStr k) with
  | some p => p.2
  | none => ""

/-- CRC-32 (IEEE polynomial), one input byte. -/
def crc32Byte (crc b : Nat) : Nat :=
  let step := fun c =>
    if c % 2 = 1 then (c >>> 1) ^^^ 0xedb88320 else c >>> 1
  step (step (step (step (step (step (step (step (crc ^^^ b % 256))))))))

/-- CRC-32 (IEEE) of a byte stream, as the gzip footer records it. -/
def crc32 (bs : List Nat) : Nat :=
  (bs.foldl crc32Byte 0xffffffff) ^^^ 0xffffffff

/-- Byte image of the DEFLATE stream inside the gzip container.  The Go source
delegates compression to compress/flate; no claim in this development depends
on the compressed bit stream itself, only on the container being a
deterministic function of the header fields and the input bytes, so the
compressed body is modelled as the bytes themselves. -/
def deflateBody (data : List Nat) : List Nat := data

/-- Output of a compress/gzip writer over a whole stream: the 10-byte header
(magic, method 8, flags 0, the 32-bit little-endian modification time, XFL 0,
OS 255), the compressed body, and the footer holding the CRC-32 and the input
length modulo 2^32, both little-endian. -/
def gzipEncode (modTime : Nat) (data : List Nat) : List Nat :=
  [0x1f, 0x8b, 8, 0] ++ le4 (modTime % 4294967296) ++ [0, 255] ++
    deflateBody data ++ le4 (crc32 data) ++ le4 (data.length % 4294967296)

/-- Check a gzip stream header as gzip.NewReader does on creation: the two
magic bytes, the DEFLATE method byte, and a complete header. -/
def gzipHeaderOk (bs : List Nat) : Bool :=
  decide (10 + 8 ≤ bs.length) && decide (bs.take 3 = [0x1f, 0x8b, 8])

/-- Bytes a gzip reader yields for a container produced by `gzipEncode`: the
payload between the 10-byte header and the 8-byte footer. -/
def gzipBody (bs : List Nat) : List Nat :=
  (bs.drop 10).take (bs.length - 18)

/-! ## prepare.go -/

/-- Description of a single part of a multi-part upload (prepare.go `part`).
In the Go struct Sha256 is the raw 32-byte digest, Size and Start are int64
byte counts. -/
structure part where
  Sha256 : List Nat
  Size : Nat
  Start : Nat
  deriving Repr, DecidableEq

/-- Default part value (the zero value of the Go struct). -/
def part0 : part := ⟨[], 0, 0⟩

/-- Information about the upload being performed (prepare.go `upload`).  A Go
nil Parts slice is modelled as the empty list. -/
structure upload where
  Sha256 : List Nat
  Size : Nat
  TransferSha256 : List Nat
  TransferSize : Nat
  ContentEncoding : String
  Parts : List part
  deriving Repr, DecidableEq

/-- Default upload value (the zero value of the Go struct). -/
def upload0 : upload := ⟨[], 0, [], 0, "", []⟩

/-- The fixed modification time singlePartUpload forces into the gzip header:
time.Date(2000, time.January, 0, 0, 0, 0, 0, time.UTC), i.e.
1999-12-31T00:00:00Z, as Unix seconds (prepare.go line 153). -/
def gzipForcedModTime : Nat := 946598400

/-- State of a compress/gzip writer that is relevant here: the header
modification-time field.  gzip.NewWriter leaves it at the zero time; the
environment (a different default, a wall clock) is modelled by letting the
initial value vary. -/
structure gzipWriter where
  ModTime : Nat
  deriving Repr, DecidableEq

/-- prepare.go singlePartUpload, generalized over the modification time the
fresh gzip writer starts with; the function body overwrites it with the fixed
constant before any output is produced (line 153), which is what makes the
staged output independent of `newWriterModTime`.

The copy loop reads the input through a `chunkSize`-byte buffer; the bytes
fed to the content hash are exactly the concatenation of those reads.  In the
gzip branch the encoder output fans out identically to the transfer hash, the
staging output, and the byte counter (io.MultiWriter); in the identity branch
a single hash serves as both content and transfer digest.  Returns the upload
description and the bytes written to the staging output. -/
def singlePartUploadWith (newWriterModTime : Nat) (input : List Nat)
    (gzip : Bool) (chunkSize : Nat) : upload × List Nat :=
  let copied := joinL (chunks chunkSize input)
  if gzip then
    let gw : gzipWriter := { ModTime := newWriterModTime }
    let gw2 : gzipWriter := { gw with ModTime := gzipForcedModTime }
    let t := gzipEncode gw2.ModTime copied
    ({ Sha256 := sha256 copied, Size := copied.length,
       TransferSha256 := sha256 t, TransferSize := t.length,
       ContentEncoding := "gzip", Parts := [] }, t)
  else
    ({ Sha256 := sha256 copied, Size := copied.length,
       TransferSha256 := sha256 copied, TransferSize := copied.length,
       ContentEncoding := "identity", Parts := [] }, copied)

/-- prepare.go singlePartUpload: the writer returned by gzip.NewWriter starts
with the zero modification time. -/
def singlePartUpload (input : List Nat) (gzip : Bool) (chunkSize : Nat) :
    upload × List Nat :=
  singlePartUploadWith 0 input gzip chunkSize

/-- The loop of prepare.go hashFileParts over the successful chunk reads.
State: current part index, chunks consumed in the current part, byte count of
the current part, bytes fed to the part hash since its last reset, and the
parts produced so far.  A part closes when the chunk just read is the
`chunksInPart`-th of its part (`currentPartChunk == chunksInPart - 1`,
faithfully `currentPartChunk + 1 = chunksInPart` so that `chunksInPart = 0`
never closes a part, as with Go signed arithmetic); at end of input a
nonempty current part is flushed.  Start offsets are `currentPart * partSize`
with the nominal part size, exactly as the source computes them.  The Go code
preallocates the parts slice and fills it by index; on the paths exercised
here (stream length equal to the `size` argument) the slice is filled
completely in order, which the append models. -/
def hashPartsLoop (chunkSize chunksInPart : Nat) :
    List (List Nat) → Nat → Nat → Nat → List Nat → List part → List part
  | [], currentPart, _, currentPartSize, partAcc, acc =>
    if 0 < currentPartSize then
      acc ++ [⟨sha256 partAcc, currentPartSize, currentPart * (chunkSize * chunksInPart)⟩]
    else acc
  | c :: rest, currentPart, currentPartChunk, currentPartSize, partAcc, acc =>
    if currentPartChunk + 1 = chunksInPart then
      hashPartsLoop chunkSize chunksInPart rest (currentPart + 1) 0 0 []
        (acc ++ [⟨sha256 (partAcc ++ c), currentPartSize + c.length,
                  currentPart * (chunkSize * chunksInPart)⟩])
    else
      hashPartsLoop chunkSize chunksInPart rest currentPart (currentPartChunk + 1)
        (currentPartSize + c.length) (partAcc ++ c) acc

/-- prepare.go hashFileParts: per-part digests plus the overall digest of
everything read.  The overall hash accumulates exactly the successful chunk
reads in order.  The `size` argument only dimensions the preallocated parts
slice in Go and does not bound the reads, so it does not appear in the
result here. -/
def hashFileParts (data : List Nat) (size : Nat) (chunkSize chunksInPart : Nat) :
    List part × List Nat :=
  (hashPartsLoop chunkSize chunksInPart (chunks chunkSize data) 0 0 0 [] [],
   sha256 (joinL (chunks chunkSize data)))

/-- prepare.go multiPartUpload.  Validates that the part size is at least
5 MB before anything is written; then stages the stream exactly as
singlePartUpload does, re-reads the staging stream to hash the parts, and
cross-checks the overall second-pass digest against the first-pass transfer
digest.  Returns the outcome together with the bytes written to the staging
stream (empty when validation failed before the copy). -/
def multiPartUpload (input : List Nat) (gzip : Bool) (chunkSize chunksInPart : Nat) :
    Except String upload × List Nat :=
  let partSize := chunkSize * chunksInPart
  if partSize < 1024 * 1024 * 5 then
    (Except.error ("partsize must be at least 5 MB, not " ++ toString partSize), [])
  else
    let r := singlePartUpload input gzip chunkSize
    let u := r.1
    let staged := r.2
    let ph := hashFileParts staged u.TransferSize chunkSize chunksInPart
    if ph.2 = u.TransferSha256 then
      (Except.ok { u with Parts := ph.1 }, staged)
    else
      (Except.error "file changed while determining part information", staged)

/-- interface.go Client.SetInternalSizes: validates the sizes and returns the
stored pair (chunkSize, multipartPartChunkCount). -/
def SetInternalSizes (chunkSize partSize : Nat) : Except String (Nat × Nat) :=
  if partSize < 5 * 1024 * 1024 then
    Except.error ("part size " ++ toString partSize ++ " is not minimum of 5MB")
  else if chunkSize < 1024 then
    Except.error ("chunk size " ++ toString chunkSize ++ " is not minimum of 1KB")
  else if partSize % chunkSize ≠ 0 then
    Except.error ("part size " ++ toString partSize ++ " is not divisible by chunk size "
      ++ toString chunkSize)
  else
    Except.ok (chunkSize, partSize / chunkSize)

/-! ## request.go -/

/-- request.go `request`: the information needed to run an HTTP method.  A Go
nil header is modelled as the empty list; headers installed through
newRequestFromStringMap or http.Header.Set are stored under their canonical
names. -/
structure request where
  URL : String
  Method : String
  Header : List (String × String)
  deriving Repr, DecidableEq

/-- request.go `callSummary` (the fields this development reasons about; the
Verified flag is never assigned by run and stays at its zero value). -/
structure callSummary where
  Method : String
  URL : String
  StatusCode : Nat
  Status : String
  RequestLength : Nat
  RequestSha256 : String
  RequestHeader : List (String × String)
  ResponseLength : Nat
  ResponseSha256 : String
  ResponseHeader : List (String × String)
  Verified : Bool
  deriving Repr, DecidableEq

/-- The zero value of callSummary. -/
def callSummary0 : callSummary := ⟨"", "", 0, "", 0, "", [], 0, "", [], false⟩

/-- An HTTP response as the transport delivers it to run: status, headers and
the raw (transfer-encoded) body octets. -/
structure httpResponse where
  StatusCode : Nat
  Status : String
  Header : List (String × String)
  Body : List Nat
  deriving Repr, DecidableEq

/-- Which return point of request.go run (or of the verification block inside
it) produced the result. -/
inductive runOutcome where
  | errParseCL
  | errCLMismatch
  | err5xx
  | err4xx
  | errEncoding
  | errGzip
  | errParseMetaCL
  | errParseMetaTL
  | errCorrupt
  | okDone
  deriving Repr, DecidableEq

/-- Result of request.go run: the call summary, the retryable classification,
which return point fired, and the bytes written to the caller-supplied output
writer (empty when none was supplied or the copy was never reached). -/
structure runResult where
  cs : callSummary
  retryable : Bool
  outcome : runOutcome
  sinkBytes : List Nat
  deriving Repr, DecidableEq

/-- The verification block of request.go run (lines 333-429) against the
measured transfer/content byte counts and lowercase-hex digests.  Faithful
points: a present but unparsable length header returns early (retryable, not
Corrupt); an absent x-amz-meta-content-length or x-amz-meta-content-sha256,
or a content sha256 that is not 64 characters, marks the response invalid;
the transfer length and sha256 default to the content values when absent; any
invalid response returns ErrCorrupt. -/
def verifyStep (hdr : List (String × String)) (transferBytes contentBytes : Nat)
    (sTransferHash sContentHash : String) : runOutcome :=
  let cSize := headerGet hdr "x-amz-meta-content-length"
  if cSize ≠ "" ∧ parseInt64 cSize = none then runOutcome.errParseMetaCL
  else
    let valid1 : Prop := cSize ≠ ""
    let expectedSize : Int := if cSize = "" then 0 else (parseInt64 cSize).getD 0
    let tSize := headerGet hdr "x-amz-meta-transfer-length"
    if tSize ≠ "" ∧ parseInt64 tSize = none then runOutcome.errParseMetaTL
    else
      let expectedTransferSize : Int :=
        if tSize = "" then expectedSize else (parseInt64 tSize).getD 0
      let expectedSha256 := headerGet hdr "x-amz-meta-content-sha256"
      let expectedTransferSha256Raw := headerGet hdr "x-amz-meta-transfer-sha256"
      let expectedTransferSha256 :=
        if expectedTransferSha256Raw = "" then expectedSha256 else expectedTransferSha256Raw
      if valid1 ∧ expectedSha256 ≠ "" ∧ expectedSha256.length = 64 ∧
          expectedTransferSize = (transferBytes : Int) ∧
          expectedTransferSha256 = sTransferHash ∧
          expectedSize = (contentBytes : Int) ∧
          expectedSha256 = sContentHash then
        runOutcome.okDone
      else runOutcome.errCorrupt

/-- Byte count the transport reads off the request-body tee during the
request: zero when no body reader was supplied. -/
def sentLen (body : Option (List Nat)) (sent : List Nat) : Nat :=
  if body.isNone then 0 else sent.length

/-- The decoded (content) byte stream of a response as run measures it:
gzip-decoded when the content-encoding says gzip, the raw body otherwise. -/
def measuredContent (resp : httpResponse) : List Nat :=
  if trimStr (headerGet resp.Header "content-encoding") = "gzip" then gzipBody resp.Body
  else resp.Body

/-- request.go client.run.  `body` is the optional request body reader
(`inputReader`); `sent` is the byte stream the transport actually read from
it while performing the request (the tee feeds the request hash and counter
from exactly those reads); `hasSink` records whether an output writer was
passed; `resp` is the response the transport delivered.  The model assumes
the transport produced a response and that local copy I/O succeeded; those
environmental failures are the only return points of the source not
represented here.

Faithful ordering points from the source: the request digest and length
fields of the call summary are captured before the request runs (lines
211-213), so they are the hash of zero bytes and a zero count, and the
Content-Length parse failure (line 204) returns before even those fields are
set; the mismatch check (line 243) compares the parsed Content-Length against
the bytes actually read; the status checks follow it; content decoding and
the copy loop run before the verification block, so the response length and
digest fields are populated even when verification fails. -/
def run (req : request) (body : Option (List Nat)) (sent : List Nat)
    (chunkSize : Nat) (hasSink : Bool) (verify : Bool) (resp : httpResponse) : runResult :=
  let cs0 := { callSummary0 with URL := req.URL, Method := req.Method }
  let hadCL := req.Header.any (fun p => p.1 == "Content-Length")
  let clStr := headerGet req.Header "Content-Length"
  if hadCL ∧ parseInt64 clStr = none then ⟨cs0, false, runOutcome.errParseCL, []⟩
  else
    let contentLength : Int := (parseInt64 clStr).getD 0
    let cs1 := { cs0 with RequestHeader := req.Header, RequestLength := 0,
                          RequestSha256 := toHex (sha256 []) }
    let cs2 := { cs1 with Status := resp.Status, StatusCode := resp.StatusCode,
                          ResponseHeader := resp.Header }
    if hadCL ∧ contentLength ≠ (sentLen body sent : Int) then
      ⟨cs2, true, runOutcome.errCLMismatch, []⟩
    else if 500 ≤ resp.StatusCode then ⟨cs2, true, runOutcome.err5xx, []⟩
    else if 400 ≤ resp.StatusCode then ⟨cs2, false, runOutcome.err4xx, []⟩
    else
      let enc := trimStr (headerGet resp.Header "content-encoding")
      if ¬(enc = "" ∨ enc = "identity" ∨ enc = "gzip") then
        ⟨cs2, false, runOutcome.errEncoding, []⟩
      else if enc = "gzip" ∧ ¬gzipHeaderOk resp.Body then
        ⟨cs2, false, runOutcome.errGzip, []⟩
      else
        let content := measuredContent resp
        let sink := if hasSink then content else []
        let transferBytes := resp.Body.length
        let sTransferHash := toHex (sha256 resp.Body)
        let sContentHash := toHex (sha256 content)
        let cs3 := { cs2 with ResponseLength := transferBytes,
                              ResponseSha256 := sTransferHash }
        if verify then
          let vs := verifyStep resp.Header transferBytes content.length
            sTransferHash sContentHash
          if vs = runOutcome.errParseMetaCL then ⟨cs3, true, runOutcome.errParseMetaCL, sink⟩
          else if vs = runOutcome.errParseMetaTL then ⟨cs3, true, runOutcome.errParseMetaTL, sink⟩
          else if vs = runOutcome.errCorrupt then ⟨cs3, true, runOutcome.errCorrupt, sink⟩
          else ⟨cs3, false, runOutcome.okDone, sink⟩
        else ⟨cs3, false, runOutcome.okDone, sink⟩

/-- The claim-side mismatch predicate, stated from the specification wording:
at least one of the four metadata values (x-amz-meta-content-length,
x-amz-meta-content-sha256, x-amz-meta-transfer-length,
x-amz-meta-transfer-sha256, with the transfer values defaulting to the
content values when absent) disagrees with the measured content/transfer
lengths and lowercase-hex SHA-256 digests.  A length value agrees when it
parses to the measured count; an absent required value agrees with nothing. -/
def metaDisagrees (hdr : List (String × String)) (transferBytes contentBytes : Nat)
    (sTransferHash sContentHash : String) : Bool :=
  let cl := headerGet hdr "x-amz-meta-content-length"
  let csha := headerGet hdr "x-amz-meta-content-sha256"
  let tl := if headerGet hdr "x-amz-meta-transfer-length" = "" then cl
            else headerGet hdr "x-amz-meta-transfer-length"
  let tsha := if headerGet hdr "x-amz-meta-transfer-sha256" = "" then csha
              else headerGet hdr "x-amz-meta-transfer-sha256"
  !(decide (parseInt64 cl = some (contentBytes : Int)) &&
    decide (csha = sContentHash) &&
    decide (parseInt64 tl = some (transferBytes : Int)) &&
    decide (tsha = sTransferHash))

/-! ## The bounded body reader (body.go) -/

/-- The body type: an io.Reader over the window of `Size` bytes of the
backing seekable source starting at `Offset`.  The backing source position
and the remaining byte budget of the io.LimitReader are the mutable state
threaded through reads. -/
structure body where
  backing : List Nat
  pos : Nat
  Offset : Nat
  Size : Nat
  remaining : Nat
  deriving Repr, DecidableEq

/-- body.Reset: seek the backing source to the stored offset and install a
fresh limit of `Size` bytes.  The only failure in Go is a seek failure, which
a list-backed source never produces. -/
def body.Reset (b : body) : body :=
  { b with pos := b.Offset, remaining := b.Size }

/-- newBody: construction fails when the requested size is zero; otherwise
the body starts reset. -/
def newBody (input : List Nat) (offset size : Nat) : Except String body :=
  if size = 0 then Except.error "cannot specify a size of 0"
  else Except.ok (body.Reset ⟨input, 0, offset, size, 0⟩)

/-- body.Read with a buffer of `n` bytes: the io.LimitReader caps the read at
the remaining budget, and the backing source yields at most the bytes it
still holds past the current position. -/
def body.Read (b : body) (n : Nat) : List Nat × body :=
  let cap := min n b.remaining
  let t := (b.backing.drop b.pos).take cap
  (t, { b with pos := b.pos + t.length, remaining := b.remaining - t.length })

/-- Fuel-indexed read-to-EOF loop; every successful read consumes at least
one byte of the remaining budget, so fuel `remaining + 1` never runs out. -/
def readToEndF : Nat → body → Nat → List Nat × body
  | 0, b, _ => ([], b)
  | f + 1, b, n =>
    if (b.Read n).1.length = 0 then ([], (b.Read n).2)
    else
      ((b.Read n).1 ++ (readToEndF f (b.Read n).2 n).1, (readToEndF f (b.Read n).2 n).2)

/-- Read a body to EOF through a buffer of `n` bytes: repeat `Read` until a
read returns no bytes, concatenating the results. -/
def readToEnd (b : body) (n : Nat) : List Nat × body :=
  readToEndF (b.remaining + 1) b n

/-! ## interface.go -/

/-- The output-emptiness check and media-type sniffing prefix of
interface.go Upload (lines 107-130).  `stagingLen` is the offset obtained by
seeking the staging output to its end.  The sniffing read uses a 512-byte
buffer; a seekable source at position zero returns min(512, length) bytes,
with io.EOF (a non-nil error, which Upload rejects) exactly when the source
is empty.  Afterwards the source code seeks the staging OUTPUT back to
position 0 (line 126) - not the input, despite the comment above it - so the
returned pair is (input position, staging position) when the step succeeds. -/
def uploadMimeStep (input : List Nat) (stagingLen : Nat) : Except String (Nat × Nat) :=
  if stagingLen ≠ 0 then Except.error "output writer is not empty"
  else
    let n := min 512 input.length
    if n = 0 then Except.error "reading 512 bytes to determine mime type: EOF"
    else Except.ok (n, 0)

/-- Return points of interface.go Client.download. -/
inductive downloadOutcome where
  | errBadOutputWriter
  | errFirstRun (o : runOutcome)
  | errExpectedRedirect
  | errBadRedirect
  | errHTTPS
  | errSecondRun (o : runOutcome)
  | errUnexpectedRedirect
  | ok
  deriving Repr, DecidableEq

/-- Result of interface.go Client.download: which return point fired and the
bytes written to the caller output writer. -/
structure downloadResult where
  outcome : downloadOutcome
  sinkBytes : List Nat
  deriving Repr, DecidableEq

/-- Scheme of a URL as net/url parses it, restricted to the shapes exercised
here. -/
def urlScheme (s : String) : String :=
  if "https://".data.isPrefixOf s.data then "https"
  else if "http://".data.isPrefixOf s.data then "http"
  else ""

/-- interface.go Client.download (lines 273-345).  `outputSize` is the size
the output writer reports through Stat or Seek when it supports either.  The
first GET captures the redirect; its body goes to an in-memory redirect
buffer, never to the caller output.  The dispatch is purely on the status
code and Location header: the response headers are not consulted for a
storage type.  Only the second GET, run with verify=true, writes to the
caller output writer. -/
def download (u : String) (outputSize : Option Nat) (chunkSize : Nat)
    (allowInsecure : Bool) (resp1 resp2 : httpResponse) : downloadResult :=
  if outputSize.getD 0 ≠ 0 then ⟨downloadOutcome.errBadOutputWriter, []⟩
  else
    let r1 := run ⟨u, "GET", []⟩ none [] chunkSize true false resp1
    if r1.outcome ≠ runOutcome.okDone then ⟨downloadOutcome.errFirstRun r1.outcome, []⟩
    else if r1.cs.StatusCode < 300 ∨ 400 ≤ r1.cs.StatusCode then
      ⟨downloadOutcome.errExpectedRedirect, []⟩
    else
      let location := headerGet resp1.Header "Location"
      if location = "" then ⟨downloadOutcome.errBadRedirect, []⟩
      else if ¬allowInsecure ∧ urlScheme location ≠ "https" then
        ⟨downloadOutcome.errHTTPS, []⟩
      else
        let r2 := run ⟨location, "GET", []⟩ none [] chunkSize true true resp2
        if r2.outcome ≠ runOutcome.okDone then
          ⟨downloadOutcome.errSecondRun r2.outcome, r2.sinkBytes⟩
        else if 300 ≤ r2.cs.StatusCode then
          ⟨downloadOutcome.errUnexpectedRedirect, r2.sinkBytes⟩
        else ⟨downloadOutcome.ok, r2.sinkBytes⟩

/-- Whether an Except value is a success. -/
def exceptIsOk {ε α : Type} : Except ε α → Bool
  | Except.ok _ => true
  | Except.error _ => false

/-! ## Proof-side helper definitions -/

/-- The part descriptions that correspond to a list of part-sized byte
chunks, starting at part index `k`: digest and size of each chunk, with the
nominal start offset `index * partSize`. -/
def partsFrom (partSize : Nat) : Nat → List (List Nat) → List part
  | _, [] => []
  | k, c :: r => ⟨sha256 c, c.length, k * partSize⟩ :: partsFrom partSize (k + 1) r

/-- Total size of a list of parts. -/
def sumSizes (ps : List part) : Nat :=
  ps.foldr (fun p a => p.Size + a) 0

/-! ## Chunking lemmas -/

theorem joinL_append (a b : List (List Nat)) : joinL (a ++ b) = joinL a ++ joinL b := by
  induction a with
  | nil => rfl
  | cons c r ih => simp [joinL, ih]

theorem chunksF_nil : ∀ (f n : Nat), chunksF f n [] = [] := by
  intro f n
  match f, n with
  | 0, _ => rfl
  | _ + 1, 0 => rfl
  | _ + 1, _ + 1 => rfl

theorem chunksF_congr : ∀ (f1 f2 n : Nat) (l : List Nat), l.length ≤ f1 → l.length ≤ f2 →
    chunksF f1 n l = chunksF f2 n l := by
  intro f1
  induction f1 with
  | zero =>
    intro f2 n l h1 _
    have h0 : l = [] := List.eq_nil_of_length_eq_zero (Nat.le_zero.mp h1)
    subst h0
    rw [chunksF_nil, chunksF_nil]
  | succ f ih =>
    intro f2 n l h1 h2
    match l with
    | [] => rw [chunksF_nil, chunksF_nil]
    | a :: t =>
      obtain ⟨g, rfl⟩ : ∃ g, f2 = g + 1 := ⟨f2 - 1, by simp at h2; omega⟩
      match n with
      | 0 => rfl
      | m + 1 =>
        show ((a :: t).take (m + 1)) :: chunksF f (m + 1) ((a :: t).drop (m + 1)) =
          ((a :: t).take (m + 1)) :: chunksF g (m + 1) ((a :: t).drop (m + 1))
        congr 1
        apply ih
        · simp only [List.length_drop] at h1 ⊢
          simp at h1 ⊢
          omega
        · simp only [List.length_drop] at h2 ⊢
          simp at h2 ⊢
          omega

theorem chunks_nil (n : Nat) : chunks n [] = [] := rfl

theorem chunks_cons_eq (n : Nat) (hn : 0 < n) (l : List Nat) (hl : l ≠ []) :
    chunks n l = l.take n :: chunks n (l.drop n) := by
  obtain ⟨m, rfl⟩ : ∃ m, n = m + 1 := ⟨n - 1, by omega⟩
  match l with
  | [] => exact absurd rfl hl
  | a :: t =>
    show chunksF (t.length + 1) (m + 1) (a :: t) = _
    show ((a :: t).take (m + 1)) :: chunksF t.length (m + 1) ((a :: t).drop (m + 1)) = _
    congr 1
    apply chunksF_congr
    · simp [List.length_drop]
    · exact le_rfl

theorem joinL_chunks (n : Nat) (hn : 0 < n) (l : List Nat) :
    joinL (chunks n l) = l := by
  have H : ∀ (N : Nat) (l : List Nat), l.length ≤ N → joinL (chunks n l) = l := by
    intro N
    induction N with
    | zero =>
      intro l hl
      have h0 : l = [] := List.eq_nil_of_length_eq_zero (Nat.le_zero.mp hl)
      subst h0
      simp [chunks_nil, joinL]
    | succ N ih =>
      intro l hl
      match l with
      | [] => simp [chunks_nil, joinL]
      | a :: t =>
        rw [chunks_cons_eq n hn _ (by simp), joinL,
          ih _ (by simp [List.length_drop] at hl ⊢; omega)]
        exact List.take_append_drop _ _
  exact H l.length l le_rfl

theorem chunks_single (n : Nat) (l : List Nat) (h0 : l ≠ []) (hle : l.length ≤ n) :
    chunks n l = [l] := by
  have hn : 0 < n := by
    cases l with
    | nil => exact absurd rfl h0
    | cons a t => simp at hle; omega
  rw [chunks_cons_eq n hn l h0]
  have hd : l.drop n = [] := List.drop_eq_nil_of_le hle
  have ht : l.take n = l := List.take_of_length_le hle
  rw [hd, ht, chunks_nil]

theorem chunks_append (n : Nat) (hn : 0 < n) :
    ∀ (k : Nat) (p r : List Nat), p.length = n * k →
      chunks n (p ++ r) = chunks n p ++ chunks n r := by
  intro k
  induction k with
  | zero =>
    intro p r hp
    have h0 : p = [] := List.eq_nil_of_length_eq_zero (by omega)
    subst h0
    simp [chunks_nil]
  | succ k ih =>
    intro p r hp
    have hpne : p ≠ [] := by
      intro h0
      subst h0
      simp at hp
      omega
    have hnp : n ≤ p.length := by
      rw [hp]
      calc n = n * 1 := by omega
        _ ≤ n * (k + 1) := Nat.mul_le_mul_left n (by omega)
    have happ : p ++ r ≠ [] := by
      intro h0
      exact hpne (List.append_eq_nil.mp h0).1
    rw [chunks_cons_eq n hn _ happ, chunks_cons_eq n hn p hpne]
    have htake : (p ++ r).take n = p.take n := List.take_append_of_le_length hnp
    have hdrop : (p ++ r).drop n = p.drop n ++ r := List.drop_append_of_le_length hnp
    rw [htake, hdrop, ih (p.drop n) r (by rw [List.length_drop, hp, Nat.mul_succ]; omega)]
    simp

theorem chunks_getD (n : Nat) (hn : 0 < n) :
    ∀ (l : List Nat) (i : Nat), i < (chunks n l).length →
      (chunks n l).getD i [] = (l.drop (i * n)).take n := by
  have H : ∀ (N : Nat) (l : List Nat), l.length ≤ N → ∀ i, i < (chunks n l).length →
      (chunks n l).getD i [] = (l.drop (i * n)).take n := by
    intro N
    induction N with
    | zero =>
      intro l hl i hi
      have h0 : l = [] := List.eq_nil_of_length_eq_zero (Nat.le_zero.mp hl)
      subst h0
      simp [chunks_nil] at hi
    | succ N ih =>
      intro l hl i hi
      match l with
      | [] => simp [chunks_nil] at hi
      | a :: t =>
        rw [chunks_cons_eq n hn _ (by simp)] at hi ⊢
        match i with
        | 0 => simp
        | i + 1 =>
          simp only [List.getD_cons_succ]
          rw [ih _ (by simp [List.length_drop] at hl ⊢; omega) i (by simpa using hi)]
          rw [List.drop_drop]
          congr 2
          ring
  intro l
  exact H l.length l le_rfl

theorem chunks_full (n : Nat) (hn : 0 < n) :
    ∀ (l : List Nat) (i : Nat), i + 1 < (chunks n l).length →
      ((chunks n l).getD i []).length = n := by
  have H : ∀ (N : Nat) (l : List Nat), l.length ≤ N → ∀ i, i + 1 < (chunks n l).length →
      ((chunks n l).getD i []).length = n := by
    intro N
    induction N with
    | zero =>
      intro l hl i hi
      have h0 : l = [] := List.eq_nil_of_length_eq_zero (Nat.le_zero.mp hl)
      subst h0
      simp [chunks_nil] at hi
    | succ N ih =>
      intro l hl i hi
      match l with
      | [] => simp [chunks_nil] at hi
      | a :: t =>
        rw [chunks_cons_eq n hn _ (by simp)] at hi ⊢
        match i with
        | 0 =>
          simp only [List.getD_cons_zero, List.length_take]
          have hne : (a :: t).drop n ≠ [] := by
            intro h0
            rw [h0, chunks_nil] at hi
            simp at hi
          have hlen : n < (a :: t).length := by
            by_contra hc
            exact hne (List.drop_eq_nil_of_le (by omega))
          omega
        | i + 1 =>
          simp only [List.getD_cons_succ]
          exact ih _ (by simp [List.length_drop] at hl ⊢; omega) i (by simpa using hi)
  intro l
  exact H l.length l le_rfl

theorem hashLoop_last (cs cip : Nat) (hcs : 0 < cs) :
    ∀ (N : Nat) (q : List Nat), q.length ≤ N →
    ∀ (k j : Nat) (a : List Nat) (ps : List part) (m s : Nat),
      s = a.length → m + j = cip → 1 ≤ m → q.length ≤ cs * m →
      hashPartsLoop cs cip (chunks cs q) k j s a ps =
        ps ++ (if (a ++ q).length = 0 then []
               else [⟨sha256 (a ++ q), (a ++ q).length, k * (cs * cip)⟩]) := by
  intro N
  induction N with
  | zero =>
    intro q hq k j a ps m s hs _ _ _
    have h0 : q = [] := List.eq_nil_of_length_eq_zero (Nat.le_zero.mp hq)
    subst h0
    subst hs
    rw [chunks_nil]
    simp only [hashPartsLoop, List.append_nil]
    by_cases ha : a.length = 0
    · simp [ha]
    · simp [ha, Nat.pos_of_ne_zero ha]
  | succ N ih =>
    intro q hq k j a ps m s hs hm hm1 hqm
    match q with
    | [] =>
      subst hs
      rw [chunks_nil]
      simp only [hashPartsLoop, List.append_nil]
      by_cases ha : a.length = 0
      · simp [ha]
      · simp [ha, Nat.pos_of_ne_zero ha]
    | x :: t =>
      rw [chunks_cons_eq cs hcs _ (by simp)]
      by_cases hj : j + 1 = cip
      · have hm2 : m = 1 := by omega
        subst hm2
        have hqs : (x :: t).length ≤ cs := by simpa using hqm
        have htake : (x :: t).take cs = x :: t := List.take_of_length_le hqs
        have hdrop : (x :: t).drop cs = [] := List.drop_eq_nil_of_le hqs
        rw [hdrop, chunks_nil]
        simp only [hashPartsLoop, hj, if_pos rfl, if_true]
        subst hs
        rw [htake]
        have hlen : a.length + (x :: t).length = (a ++ x :: t).length := by
          simp [List.length_append]
        rw [hlen]
        have hne : ((a ++ x :: t).length = 0) = False := by
          simp [List.length_append]
        simp [hashPartsLoop, hne]
      · have hm2 : 2 ≤ m := by omega
        simp only [hashPartsLoop, hj, if_neg hj, if_false]
        subst hs
        have hstep :
            hashPartsLoop cs cip (chunks cs ((x :: t).drop cs)) k (j + 1)
              (a.length + ((x :: t).take cs).length) (a ++ (x :: t).take cs) ps =
            ps ++ (if ((a ++ (x :: t).take cs) ++ (x :: t).drop cs).length = 0 then []
                   else [⟨sha256 ((a ++ (x :: t).take cs) ++ (x :: t).drop cs),
                          ((a ++ (x :: t).take cs) ++ (x :: t).drop cs).length,
                          k * (cs * cip)⟩]) := by
          apply ih ((x :: t).drop cs)
            (by simp only [List.length_drop] at hq ⊢; simp at hq ⊢; omega)
            k (j + 1) (a ++ (x :: t).take cs) ps (m - 1)
          · simp [List.length_append]
          · omega
          · omega
          · have hmul : cs * m = cs * (m - 1) + cs := by
              conv_lhs => rw [show m = (m - 1) + 1 by omega]
              rw [Nat.mul_succ]
            simp only [List.length_drop]
            omega
        rw [hstep]
        rw [List.append_assoc, List.take_append_drop]

theorem hashLoop_full (cs cip : Nat) (hcs : 0 < cs) :
    ∀ (N : Nat) (q : List Nat), q.length ≤ N →
    ∀ (L2 : List (List Nat)) (k : Nat) (a : List Nat) (ps : List part) (m s : Nat),
      s = a.length → 1 ≤ m → m ≤ cip → q.length = cs * m →
      hashPartsLoop cs cip (chunks cs q ++ L2) k (cip - m) s a ps =
        hashPartsLoop cs cip L2 (k + 1) 0 0 []
          (ps ++ [⟨sha256 (a ++ q), (a ++ q).length, k * (cs * cip)⟩]) := by
  intro N
  induction N with
  | zero =>
    intro q hq L2 k a ps m s _ hm1 _ hqm
    exfalso
    have h0 : q.length = 0 := Nat.le_zero.mp hq
    rw [hqm] at h0
    have : 0 < cs * m := Nat.mul_pos hcs hm1
    omega
  | succ N ih =>
    intro q hq L2 k a ps m s hs hm1 hmc hqm
    have hqne : q ≠ [] := by
      intro h0
      subst h0
      simp at hqm
      have : 0 < cs * m := Nat.mul_pos hcs hm1
      omega
    rw [chunks_cons_eq cs hcs q hqne, List.cons_append]
    by_cases hm : m = 1
    · subst hm
      have hqs : q.length = cs := by simpa using hqm
      have htake : q.take cs = q := List.take_of_length_le (by omega)
      have hdrop : q.drop cs = [] := List.drop_eq_nil_of_le (by omega)
      have hj : cip - 1 + 1 = cip := by omega
      simp only [hashPartsLoop, hj, if_pos rfl, if_true]
      rw [hdrop, chunks_nil, List.nil_append, htake]
      subst hs
      have hlen : a.length + q.length = (a ++ q).length := by simp [List.length_append]
      rw [hlen]
    · have hm2 : 2 ≤ m := by omega
      have hj : ¬(cip - m + 1 = cip) := by omega
      simp only [hashPartsLoop, hj, if_neg hj, if_false]
      subst hs
      have hj2 : cip - m + 1 = cip - (m - 1) := by omega
      rw [hj2]
      have hstep := ih (q.drop cs)
        (by simp only [List.length_drop]; omega)
        L2 k (a ++ q.take cs) ps (m - 1) (a.length + (q.take cs).length)
        (by simp [List.length_append])
        (by omega) (by omega)
        (by
          have hmul : cs * m = cs * (m - 1) + cs := by
            conv_lhs => rw [show m = (m - 1) + 1 by omega]
            rw [Nat.mul_succ]
          have hcsq : cs ≤ q.length := by
            rw [hqm]
            calc cs = cs * 1 := by omega
              _ ≤ cs * m := Nat.mul_le_mul_left cs hm1
          simp only [List.length_drop]
          omega)
      rw [hstep, List.append_assoc, List.take_append_drop]

theorem hashLoop_main (cs cip : Nat) (hcs : 0 < cs) (hcip : 1 ≤ cip) :
    ∀ (N : Nat) (l : List Nat), l.length ≤ N → ∀ (k : Nat) (ps : List part),
      hashPartsLoop cs cip (chunks cs l) k 0 0 [] ps =
        ps ++ partsFrom (cs * cip) k (chunks (cs * cip) l) := by
  intro N
  induction N with
  | zero =>
    intro l hl k ps
    have h0 : l = [] := List.eq_nil_of_length_eq_zero (Nat.le_zero.mp hl)
    subst h0
    rw [chunks_nil, chunks_nil]
    simp [hashPartsLoop, partsFrom]
  | succ N ih =>
    intro l hl k ps
    match l with
    | [] =>
      rw [chunks_nil, chunks_nil]
      simp [hashPartsLoop, partsFrom]
    | x :: t =>
      have hP : 0 < cs * cip := Nat.mul_pos hcs hcip
      by_cases hle : (x :: t).length ≤ cs * cip
      · rw [chunks_single (cs * cip) (x :: t) (by simp) hle]
        have hlast := hashLoop_last cs cip hcs (x :: t).length (x :: t) le_rfl
          k 0 [] ps cip 0 rfl (by omega) hcip (by simpa using hle)
        rw [hlast]
        simp [partsFrom]
      · have hsplit : (x :: t).take (cs * cip) ++ (x :: t).drop (cs * cip) = x :: t :=
          List.take_append_drop _ _
        have hlentake : ((x :: t).take (cs * cip)).length = cs * cip := by
          rw [List.length_take]
          omega
        conv_lhs => rw [← hsplit]
        rw [chunks_append cs hcs cip _ _ (by rw [hlentake])]
        have h0 : (0 : Nat) = cip - cip := (Nat.sub_self cip).symm
        have hfull := hashLoop_full cs cip hcs ((x :: t).take (cs * cip)).length
          ((x :: t).take (cs * cip)) le_rfl
          (chunks cs ((x :: t).drop (cs * cip))) k [] ps cip 0 rfl hcip le_rfl
          (by rw [hlentake])
        rw [Nat.sub_self] at hfull
        rw [hfull]
        rw [ih ((x :: t).drop (cs * cip))
          (by simp only [List.length_drop]; simp at hl ⊢; omega) (k + 1)]
        rw [chunks_cons_eq (cs * cip) hP (x :: t) (by simp)]
        simp only [partsFrom, List.nil_append, hlentake]
        simp

theorem partsFrom_length (P : Nat) : ∀ (L : List (List Nat)) (k : Nat),
    (partsFrom P k L).length = L.length := by
  intro L
  induction L with
  | nil => intro k; rfl
  | cons c r ih => intro k; simp [partsFrom, ih]

theorem partsFrom_getD (P : Nat) : ∀ (L : List (List Nat)) (k i : Nat), i < L.length →
    (partsFrom P k L).getD i part0 =
      ⟨sha256 (L.getD i []), (L.getD i []).length, (k + i) * P⟩ := by
  intro L
  induction L with
  | nil => intro k i hi; simp at hi
  | cons c r ih =>
    intro k i hi
    match i with
    | 0 => simp [partsFrom]
    | i + 1 =>
      simp only [partsFrom, List.getD_cons_succ]
      rw [ih (k + 1) i (by simpa using hi)]
      have harith : k + 1 + i = k + (i + 1) := by omega
      rw [harith]

theorem partsFrom_take (P : Nat) : ∀ (L : List (List Nat)) (k i : Nat),
    (partsFrom P k L).take i = partsFrom P k (L.take i) := by
  intro L
  induction L with
  | nil => intro k i; simp [partsFrom]
  | cons c r ih =>
    intro k i
    match i with
    | 0 => simp [partsFrom]
    | i + 1 => simp [partsFrom, ih]

theorem sumSizes_nil : sumSizes [] = 0 := rfl

theorem sumSizes_cons (p : part) (ps : List part) :
    sumSizes (p :: ps) = p.Size + sumSizes ps := rfl

theorem sumSizes_partsFrom (P : Nat) : ∀ (L : List (List Nat)) (k : Nat),
    sumSizes (partsFrom P k L) = (joinL L).length := by
  intro L
  induction L with
  | nil => intro k; rfl
  | cons c r ih =>
    intro k
    simp only [partsFrom, sumSizes_cons, joinL, List.length_append, ih]

theorem joinL_take_len : ∀ (L : List (List Nat)) (i n : Nat),
    (∀ j, j < i → (L.getD j []).length = n) → i ≤ L.length →
    (joinL (L.take i)).length = i * n := by
  intro L
  induction L with
  | nil =>
    intro i n _ hi
    have h0 : i = 0 := by simpa using hi
    subst h0
    simp [joinL]
  | cons c r ih =>
    intro i n hfull hi
    match i with
    | 0 => simp [joinL]
    | i + 1 =>
      simp only [List.take_cons, joinL, List.length_append]
      rw [ih i n (fun j hj => hfull (j + 1) (by omega)) (by simpa using hi)]
      have hc : c.length = n := hfull 0 (by omega)
      rw [hc]
      ring

theorem chunks_getD_ne_nil (n : Nat) (hn : 0 < n) :
    ∀ (l : List Nat) (i : Nat), i < (chunks n l).length →
      (chunks n l).getD i [] ≠ [] := by
  have H : ∀ (N : Nat) (l : List Nat), l.length ≤ N → ∀ i, i < (chunks n l).length →
      (chunks n l).getD i [] ≠ [] := by
    intro N
    induction N with
    | zero =>
      intro l hl i hi
      have h0 : l = [] := List.eq_nil_of_length_eq_zero (Nat.le_zero.mp hl)
      subst h0
      simp [chunks_nil] at hi
    | succ N ih =>
      intro l hl i hi
      match l with
      | [] => simp [chunks_nil] at hi
      | a :: t =>
        rw [chunks_cons_eq n hn _ (by simp)] at hi ⊢
        match i with
        | 0 =>
          simp only [List.getD_cons_zero]
          obtain ⟨m, rfl⟩ : ∃ m, n = m + 1 := ⟨n - 1, by omega⟩
          simp [List.take_cons]
        | i + 1 =>
          simp only [List.getD_cons_succ]
          exact ih _ (by simp [List.length_drop] at hl ⊢; omega) i (by simpa using hi)
  intro l
  exact H l.length l le_rfl


theorem take_min_len (l : List Nat) (n : Nat) : l.take (min n l.length) = l.take n := by
  by_cases h : n ≤ l.length
  · rw [Nat.min_eq_left h]
  · rw [Nat.min_eq_right (by omega), List.take_length, List.take_of_length_le (by omega)]

theorem singlePart_transfer_eq (input : List Nat) (gz : Bool) (cs : Nat) :
    (singlePartUpload input gz cs).1.TransferSha256 =
      sha256 (singlePartUpload input gz cs).2 ∧
    (singlePartUpload input gz cs).1.TransferSize =
      (singlePartUpload input gz cs).2.length := by
  cases gz <;> simp [singlePartUpload, singlePartUploadWith]

theorem multiPart_ok_eq (input : List Nat) (gz : Bool) (cs cip : Nat)
    (hval : ¬ cs * cip < 1024 * 1024 * 5) (hcs : 0 < cs) (hcip : 0 < cip) :
    (multiPartUpload input gz cs cip).1 =
      Except.ok { (singlePartUpload input gz cs).1 with
        Parts := partsFrom (cs * cip) 0 (chunks (cs * cip) (singlePartUpload input gz cs).2) } ∧
    (multiPartUpload input gz cs cip).2 = (singlePartUpload input gz cs).2 := by
  have htr := singlePart_transfer_eq input gz cs
  have hcheck : (hashFileParts (singlePartUpload input gz cs).2
      (singlePartUpload input gz cs).1.TransferSize cs cip).2 =
      (singlePartUpload input gz cs).1.TransferSha256 := by
    simp only [hashFileParts]
    rw [joinL_chunks cs hcs, htr.1]
  have hparts : (hashFileParts (singlePartUpload input gz cs).2
      (singlePartUpload input gz cs).1.TransferSize cs cip).1 =
      partsFrom (cs * cip) 0 (chunks (cs * cip) (singlePartUpload input gz cs).2) := by
    simp only [hashFileParts]
    have hmain := hashLoop_main cs cip hcs hcip (singlePartUpload input gz cs).2.length
      (singlePartUpload input gz cs).2 le_rfl 0 []
    simpa using hmain
  constructor
  · simp [multiPartUpload, hval, hcheck, hparts]
  · simp [multiPartUpload, hval, hcheck]

/-! ## Claim C1: single-part preparation digests and sizes -/

/-- C1: for every input stream, gzip flag, and (positive, hence successful)
chunk size, after singlePartUpload the SHA-256 of the input equals the
Sha256 of the plan and the input length equals its Size; the SHA-256 of the
bytes written to staging equals TransferSha256 and their count equals
TransferSize; and for gzip=false the content digest and size equal the
transfer digest and size.  (A zero chunk size makes the Go copy loop panic
rather than succeed, so it is excluded.) -/
theorem c1_singlePartUpload_digests (input : List Nat) (gz : Bool) (chunkSize : Nat)
    (h : 0 < chunkSize) :
    (singlePartUpload input gz chunkSize).1.Sha256 = sha256 input ∧
    (singlePartUpload input gz chunkSize).1.Size = input.length ∧
    (singlePartUpload input gz chunkSize).1.TransferSha256 =
      sha256 (singlePartUpload input gz chunkSize).2 ∧
    (singlePartUpload input gz chunkSize).1.TransferSize =
      (singlePartUpload input gz chunkSize).2.length ∧
    (gz = false →
      (singlePartUpload input gz chunkSize).1.Sha256 =
        (singlePartUpload input gz chunkSize).1.TransferSha256 ∧
      (singlePartUpload input gz chunkSize).1.Size =
        (singlePartUpload input gz chunkSize).1.TransferSize) := by
  have hj : joinL (chunks chunkSize input) = input := joinL_chunks chunkSize h input
  cases gz <;> simp [singlePartUpload, singlePartUploadWith, hj]

/-- Witness for C1 at a concrete input. -/
theorem c1_singlePartUpload_digests_witness :
    0 < 2 ∧
    ((singlePartUpload [10, 20, 30] true 2).1.Sha256 = sha256 [10, 20, 30] ∧
     (singlePartUpload [10, 20, 30] true 2).1.Size = ([10, 20, 30] : List Nat).length ∧
     (singlePartUpload [10, 20, 30] true 2).1.TransferSha256 =
       sha256 (singlePartUpload [10, 20, 30] true 2).2 ∧
     (singlePartUpload [10, 20, 30] true 2).1.TransferSize =
       (singlePartUpload [10, 20, 30] true 2).2.length ∧
     (true = false →
       (singlePartUpload [10, 20, 30] true 2).1.Sha256 =
         (singlePartUpload [10, 20, 30] true 2).1.TransferSha256 ∧
       (singlePartUpload [10, 20, 30] true 2).1.Size =
         (singlePartUpload [10, 20, 30] true 2).1.TransferSize)) :=
  ⟨by decide, c1_singlePartUpload_digests [10, 20, 30] true 2 (by decide)⟩

/-! ## Claim C7: gzip single-part preparation is deterministic -/

/-- C7: single-part preparation with gzip is deterministic.  Whatever
modification time the freshly created gzip writer carries (the source of
run-to-run variation the spec is concerned with), the result - in particular
the staged byte stream, hence the transfer digest and transfer size - is
identical, because the code forces the header modification time to the fixed
constant; the second conjunct pins the staged stream to the encoder output
under exactly that constant. -/
theorem c7_gzip_deterministic (mt1 mt2 : Nat) (input : List Nat) (chunkSize : Nat) :
    singlePartUploadWith mt1 input true chunkSize =
      singlePartUploadWith mt2 input true chunkSize ∧
    (singlePartUploadWith mt1 input true chunkSize).2 =
      gzipEncode gzipForcedModTime (joinL (chunks chunkSize input)) := by
  constructor
  · simp [singlePartUploadWith]
  · simp [singlePartUploadWith]

/-! ## Claim C9: multipart size validation -/

set_option maxRecDepth 100000 in
/-- C9 counterexample: the claim says multiPartUpload fails whenever the
chunk size is below 1 KiB, but with chunkSize = 512 and chunksInPart = 10240
(a 5 MiB part) it succeeds. -/
theorem c9_counterexample :
    exceptIsOk (multiPartUpload [] false 512 10240).1 = true ∧ 512 < 1024 := by
  constructor
  · decide
  · decide

/-- C9 (amended): multiPartUpload itself validates only that the part size
chunkSize * chunksInPart is at least 5 MB, and fails without writing to the
staging stream when it is not; the 1 KiB chunk-size minimum and the
divisibility requirement are enforced by Client.SetInternalSizes (and
divisibility holds in multiPartUpload by construction), whose error
condition is exactly partSize < 5 MB or chunkSize < 1 KiB or
partSize % chunkSize differing from 0. -/
theorem c9_size_validation_amended :
    (∀ (input : List Nat) (gz : Bool) (cs cip : Nat), cs * cip < 1024 * 1024 * 5 →
      multiPartUpload input gz cs cip =
        (Except.error ("partsize must be at least 5 MB, not " ++ toString (cs * cip)), [])) ∧
    (∀ c p : Nat, exceptIsOk (SetInternalSizes c p) = false ↔
      (p < 5 * 1024 * 1024 ∨ c < 1024 ∨ p % c ≠ 0)) := by
  constructor
  · intro input gz cs cip hv
    simp [multiPartUpload, hv]
  · intro c p
    by_cases h1 : p < 5 * 1024 * 1024 <;> by_cases h2 : c < 1024 <;>
      by_cases h3 : p % c = 0 <;>
      simp [SetInternalSizes, exceptIsOk, h1, h2, h3]

/-- Witness for C9 (amended) at a concrete input. -/
theorem c9_size_validation_amended_witness :
    (1 * 1 < 1024 * 1024 * 5 ∧
      multiPartUpload [] false 1 1 =
        (Except.error ("partsize must be at least 5 MB, not " ++ toString (1 * 1)), [])) ∧
    (exceptIsOk (SetInternalSizes 512 (5 * 1024 * 1024)) = false ↔
      (5 * 1024 * 1024 < 5 * 1024 * 1024 ∨ 512 < 1024 ∨ 5 * 1024 * 1024 % 512 ≠ 0)) :=
  ⟨⟨by decide, c9_size_validation_amended.1 [] false 1 1 (by decide)⟩,
    c9_size_validation_amended.2 512 (5 * 1024 * 1024)⟩

/-! ## Claim C3: multipart parts partition the staging stream -/

/-- C3: after a successful multiPartUpload, part i starts at the sum of the
sizes of the preceding parts, every part except possibly the last has size
chunkSize * chunksInPart, the last part is at least one byte, the part sizes
sum to the transfer size, and the SHA-256 of the staged bytes in
[Start, Start + Size) of each part equals its recorded digest. -/
theorem c3_multipart_parts_partition (input : List Nat) (gz : Bool) (cs cip : Nat)
    (u : upload) (h : (multiPartUpload input gz cs cip).1 = Except.ok u) :
    (∀ i, i < u.Parts.length → (u.Parts.getD i part0).Start = sumSizes (u.Parts.take i)) ∧
    (∀ i, i + 1 < u.Parts.length → (u.Parts.getD i part0).Size = cs * cip) ∧
    (u.Parts ≠ [] → 1 ≤ (u.Parts.getD (u.Parts.length - 1) part0).Size) ∧
    sumSizes u.Parts = u.TransferSize ∧
    (∀ i, i < u.Parts.length →
      (u.Parts.getD i part0).Sha256 =
        sha256 (((multiPartUpload input gz cs cip).2.drop
          ((u.Parts.getD i part0).Start)).take ((u.Parts.getD i part0).Size))) := by
  by_cases hval : cs * cip < 1024 * 1024 * 5
  · exfalso
    simp [multiPartUpload, hval] at h
  · have hcs : 0 < cs := by
      rcases Nat.eq_zero_or_pos cs with h0 | h0
      · exfalso
        rw [h0, Nat.zero_mul] at hval
        omega
      · exact h0
    have hcip : 0 < cip := by
      rcases Nat.eq_zero_or_pos cip with h0 | h0
      · exfalso
        rw [h0, Nat.mul_zero] at hval
        omega
      · exact h0
    have hP : 0 < cs * cip := Nat.mul_pos hcs hcip
    obtain hok := (multiPart_ok_eq input gz cs cip hval hcs hcip).1
    obtain hstaged := (multiPart_ok_eq input gz cs cip hval hcs hcip).2
    rw [hok] at h
    injection h with h2
    have hu : u = { (singlePartUpload input gz cs).1 with
        Parts := partsFrom (cs * cip) 0 (chunks (cs * cip) (singlePartUpload input gz cs).2) } :=
      h2.symm
    subst hu
    rw [hstaged]
    have htr := singlePart_transfer_eq input gz cs
    simp only
    have hlenps : (partsFrom (cs * cip) 0
        (chunks (cs * cip) (singlePartUpload input gz cs).2)).length =
        (chunks (cs * cip) (singlePartUpload input gz cs).2).length :=
      partsFrom_length (cs * cip) (chunks (cs * cip) (singlePartUpload input gz cs).2) 0
    refine ⟨?_, ?_, ?_, ?_, ?_⟩
    · intro i hi
      rw [hlenps] at hi
      rw [partsFrom_getD (cs * cip) _ 0 i hi]
      rw [partsFrom_take, sumSizes_partsFrom]
      rw [joinL_take_len (chunks (cs * cip) (singlePartUpload input gz cs).2) i (cs * cip)
        (fun j hj => chunks_full (cs * cip) hP (singlePartUpload input gz cs).2 j (by omega))
        (by omega)]
      simp
    · intro i hi
      rw [hlenps] at hi
      rw [partsFrom_getD (cs * cip) _ 0 i (by omega)]
      exact chunks_full (cs * cip) hP (singlePartUpload input gz cs).2 i hi
    · intro hne
      have hlpos : 0 < (partsFrom (cs * cip) 0
          (chunks (cs * cip) (singlePartUpload input gz cs).2)).length :=
        List.length_pos.mpr hne
      rw [hlenps] at hlpos ⊢
      rw [partsFrom_getD (cs * cip) _ 0 _ (by omega)]
      dsimp only
      have hnn := chunks_getD_ne_nil (cs * cip) hP (singlePartUpload input gz cs).2
        ((chunks (cs * cip) (singlePartUpload input gz cs).2).length - 1) (by omega)
      have hpos := List.length_pos.mpr hnn
      omega
    · rw [sumSizes_partsFrom]
      rw [joinL_chunks (cs * cip) hP (singlePartUpload input gz cs).2]
      exact htr.2.symm
    · intro i hi
      rw [hlenps] at hi
      rw [partsFrom_getD (cs * cip) _ 0 i hi]
      rw [chunks_getD (cs * cip) hP (singlePartUpload input gz cs).2 i hi]
      simp only [Nat.zero_add, List.length_take]
      rw [take_min_len]

set_option maxRecDepth 100000 in
/-- Witness for C3 at a concrete input (one five-MiB-sized part holding
three bytes). -/
theorem c3_multipart_parts_partition_witness :
    (multiPartUpload [1, 2, 3] false 5242880 1).1 =
      Except.ok ((multiPartUpload [1, 2, 3] false 5242880 1).1.toOption.getD upload0) ∧
    ((∀ i, i < ((multiPartUpload [1, 2, 3] false 5242880 1).1.toOption.getD upload0).Parts.length →
      ((((multiPartUpload [1, 2, 3] false 5242880 1).1.toOption.getD upload0).Parts.getD i
        part0).Start =
        sumSizes (((multiPartUpload [1, 2, 3] false 5242880 1).1.toOption.getD
          upload0).Parts.take i))) ∧
     (∀ i, i + 1 < ((multiPartUpload [1, 2, 3] false 5242880
        1).1.toOption.getD upload0).Parts.length →
      ((((multiPartUpload [1, 2, 3] false 5242880 1).1.toOption.getD upload0).Parts.getD i
        part0).Size = 5242880 * 1)) ∧
     (((multiPartUpload [1, 2, 3] false 5242880 1).1.toOption.getD upload0).Parts ≠ [] →
      1 ≤ (((multiPartUpload [1, 2, 3] false 5242880 1).1.toOption.getD upload0).Parts.getD
        (((multiPartUpload [1, 2, 3] false 5242880 1).1.toOption.getD
          upload0).Parts.length - 1) part0).Size) ∧
     sumSizes ((multiPartUpload [1, 2, 3] false 5242880 1).1.toOption.getD upload0).Parts =
       ((multiPartUpload [1, 2, 3] false 5242880 1).1.toOption.getD upload0).TransferSize ∧
     (∀ i, i < ((multiPartUpload [1, 2, 3] false 5242880
        1).1.toOption.getD upload0).Parts.length →
      ((((multiPartUpload [1, 2, 3] false 5242880 1).1.toOption.getD upload0).Parts.getD i
        part0).Sha256 =
        sha256 (((multiPartUpload [1, 2, 3] false 5242880 1).2.drop
          ((((multiPartUpload [1, 2, 3] false 5242880 1).1.toOption.getD upload0).Parts.getD i
            part0).Start)).take
          ((((multiPartUpload [1, 2, 3] false 5242880 1).1.toOption.getD upload0).Parts.getD i
            part0).Size))))) := by
  have h : (multiPartUpload [1, 2, 3] false 5242880 1).1 =
      Except.ok ((multiPartUpload [1, 2, 3] false 5242880 1).1.toOption.getD upload0) := by
    rfl
  exact ⟨h, c3_multipart_parts_partition [1, 2, 3] false 5242880 1 _ h⟩

/-! ## Digest-length and verification lemmas -/

theorem length_digestBytes (st : Sha256State) : (digestBytes st).length = 32 := by
  simp [digestBytes, be4]

theorem length_sha256 (msg : List Nat) : (sha256 msg).length = 32 :=
  length_digestBytes _

theorem length_hexChars : ∀ (l : List Nat), (hexChars l).length = 2 * l.length := by
  intro l
  induction l with
  | nil => rfl
  | cons b r ih =>
    simp [hexChars, ih]
    ring

theorem length_toHex (l : List Nat) : (toHex l).length = 2 * l.length := by
  show (hexChars l).length = 2 * l.length
  exact length_hexChars l

theorem length_toHex_sha256 (msg : List Nat) : (toHex (sha256 msg)).length = 64 := by
  rw [length_toHex, length_sha256]

theorem verifyStep_corrupt_iff (hdr : List (String × String)) (tb cb : Nat)
    (th ch : String) (hch : ch.length = 64)
    (h : verifyStep hdr tb cb th ch = runOutcome.errCorrupt ∨
         verifyStep hdr tb cb th ch = runOutcome.okDone) :
    (verifyStep hdr tb cb th ch = runOutcome.errCorrupt ↔
      metaDisagrees hdr tb cb th ch = true) := by
  have hchne : ch ≠ "" := by
    intro h0
    rw [h0] at hch
    simp at hch
  simp only [verifyStep, metaDisagrees] at h ⊢
  by_cases e1 : headerGet hdr "x-amz-meta-content-length" ≠ "" ∧
      parseInt64 (headerGet hdr "x-amz-meta-content-length") = none
  · simp only [if_pos e1] at h
    rcases h with h | h <;> exact absurd h (by simp)
  · simp only [if_neg e1] at h ⊢
    by_cases e2 : headerGet hdr "x-amz-meta-transfer-length" ≠ "" ∧
        parseInt64 (headerGet hdr "x-amz-meta-transfer-length") = none
    · simp only [if_pos e2] at h
      rcases h with h | h <;> exact absurd h (by simp)
    · simp only [if_neg e2] at h ⊢
      by_cases hA : headerGet hdr "x-amz-meta-content-length" = ""
      · have hpcl : parseInt64 (headerGet hdr "x-amz-meta-content-length") = none := by
          rw [hA]
          rfl
        have hemp : parseInt64 "" = none := rfl
        simp [hA, hpcl]
        exact Or.inl (Or.inl (Or.inl (by simp [hemp])))
      · rcases hpcl : parseInt64 (headerGet hdr "x-amz-meta-content-length") with _ | n
        · exact absurd ⟨hA, hpcl⟩ e1
        · by_cases hC : headerGet hdr "x-amz-meta-content-sha256" = ch
          · by_cases hB : headerGet hdr "x-amz-meta-transfer-length" = ""
            · by_cases hF : headerGet hdr "x-amz-meta-transfer-sha256" = ""
              · simp [hA, hB, hC, hF, hpcl, hchne, hch]
                constructor
                · intro hcor
                  by_cases hn1 : n = (cb : Int) <;> by_cases hn2 : n = (tb : Int) <;>
                    by_cases hn3 : ch = th <;> simp_all
                · intro hdis hn3 hn2 hn1
                  simp_all
              · simp [hA, hB, hC, hF, hpcl, hchne, hch]
                constructor
                · intro hcor
                  by_cases hn1 : n = (cb : Int) <;> by_cases hn2 : n = (tb : Int) <;>
                    by_cases hn3 : headerGet hdr "x-amz-meta-transfer-sha256" = th <;> simp_all
                · intro hdis hn3 hn2 hn1
                  simp_all
            · rcases hptl : parseInt64 (headerGet hdr "x-amz-meta-transfer-length") with _ | m
              · exact absurd ⟨hB, hptl⟩ e2
              · by_cases hF : headerGet hdr "x-amz-meta-transfer-sha256" = ""
                · simp [hA, hB, hC, hF, hpcl, hptl, hchne, hch]
                  constructor
                  · intro hcor
                    by_cases hn1 : n = (cb : Int) <;> by_cases hn2 : m = (tb : Int) <;>
                      by_cases hn3 : ch = th <;> simp_all
                  · intro hdis hn3 hn2 hn1
                    simp_all
                · simp [hA, hB, hC, hF, hpcl, hptl, hchne, hch]
                  constructor
                  · intro hcor
                    by_cases hn1 : n = (cb : Int) <;> by_cases hn2 : m = (tb : Int) <;>
                      by_cases hn3 : headerGet hdr "x-amz-meta-transfer-sha256" = th <;> simp_all
                  · intro hdis hn3 hn2 hn1
                    simp_all
          · by_cases hCe : headerGet hdr "x-amz-meta-content-sha256" = ""
            · simp [hA, hCe, hC, hpcl]
              exact Or.inl (Or.inl (Or.inr (fun h0 => hchne h0.symm)))
            · by_cases hC64 : (headerGet hdr "x-amz-meta-content-sha256").length = 64
              · simp [hA, hC, hCe, hC64, hpcl]
              · simp [hA, hC, hCe, hC64, hpcl]

theorem verifyStep_mem (hdr : List (String × String)) (tb cb : Nat) (th ch : String) :
    verifyStep hdr tb cb th ch = runOutcome.errParseMetaCL ∨
    verifyStep hdr tb cb th ch = runOutcome.errParseMetaTL ∨
    verifyStep hdr tb cb th ch = runOutcome.errCorrupt ∨
    verifyStep hdr tb cb th ch = runOutcome.okDone := by
  simp only [verifyStep]
  split_ifs <;> simp

theorem run_verify_characterization (req : request) (body : Option (List Nat))
    (sent : List Nat) (chunkSize : Nat) (hasSink : Bool) (resp : httpResponse)
    (h : (run req body sent chunkSize hasSink true resp).outcome = runOutcome.errCorrupt ∨
         (run req body sent chunkSize hasSink true resp).outcome = runOutcome.okDone) :
    run req body sent chunkSize hasSink true resp =
      ⟨{ callSummary0 with
          URL := req.URL, Method := req.Method,
          RequestHeader := req.Header, RequestLength := 0,
          RequestSha256 := toHex (sha256 []),
          Status := resp.Status, StatusCode := resp.StatusCode,
          ResponseHeader := resp.Header,
          ResponseLength := resp.Body.length,
          ResponseSha256 := toHex (sha256 resp.Body) },
        decide (verifyStep resp.Header resp.Body.length (measuredContent resp).length
          (toHex (sha256 resp.Body)) (toHex (sha256 (measuredContent resp))) =
          runOutcome.errCorrupt),
        verifyStep resp.Header resp.Body.length (measuredContent resp).length
          (toHex (sha256 resp.Body)) (toHex (sha256 (measuredContent resp))),
        if hasSink then measuredContent resp else []⟩ := by
  simp only [run] at h ⊢
  by_cases g1 : (req.Header.any fun p => p.1 == "Content-Length") = true ∧
      parseInt64 (headerGet req.Header "Content-Length") = none
  · rw [if_pos g1] at h
    simp at h
  · rw [if_neg g1] at h ⊢
    by_cases g2 : (req.Header.any fun p => p.1 == "Content-Length") = true ∧
        ¬(parseInt64 (headerGet req.Header "Content-Length")).getD 0 = (sentLen body sent : Int)
    · rw [if_pos g2] at h
      simp at h
    · rw [if_neg g2] at h ⊢
      by_cases g3 : 500 ≤ resp.StatusCode
      · rw [if_pos g3] at h
        simp at h
      · rw [if_neg g3] at h ⊢
        by_cases g4 : 400 ≤ resp.StatusCode
        · rw [if_pos g4] at h
          simp at h
        · rw [if_neg g4] at h ⊢
          by_cases g5 : ¬(trimStr (headerGet resp.Header "content-encoding") = "" ∨
              trimStr (headerGet resp.Header "content-encoding") = "identity" ∨
              trimStr (headerGet resp.Header "content-encoding") = "gzip")
          · rw [if_pos g5] at h
            simp at h
          · rw [if_neg g5] at h ⊢
            by_cases g6 : trimStr (headerGet resp.Header "content-encoding") = "gzip" ∧
                ¬gzipHeaderOk resp.Body = true
            · rw [if_pos g6] at h
              simp at h
            · rw [if_neg g6] at h ⊢
              rw [if_pos trivial] at h ⊢
              rcases verifyStep_mem resp.Header resp.Body.length (measuredContent resp).length
                (toHex (sha256 resp.Body)) (toHex (sha256 (measuredContent resp))) with
                hv | hv | hv | hv
              · rw [if_pos hv] at h
                simp at h
              · rw [if_neg (by simp [hv]), if_pos hv] at h
                simp at h
              · rw [if_neg (by simp [hv]), if_neg (by simp [hv]), if_pos hv] at h ⊢
                simp [hv]
              · rw [if_neg (by simp [hv]), if_neg (by simp [hv]), if_neg (by simp [hv])] at h ⊢
                simp [hv]

/-! ## Claim C2: verification fails with Corrupt exactly on metadata mismatch -/

/-- C2: a run with verify=true that reaches the verification comparisons
(outcome Corrupt or success; a length header that is present but unparsable
aborts the verification block earlier with a different, retryable error)
fails with the Corrupt error iff at least one of the four metadata values
disagrees with the measured lengths and hex digests, transfer values
defaulting to the content values when absent; on that failure the retryable
flag is true and the call summary still carries the measured response length
and digest. -/
theorem c2_verify_corrupt_iff (req : request) (body : Option (List Nat))
    (sent : List Nat) (chunkSize : Nat) (hasSink : Bool) (resp : httpResponse)
    (h : (run req body sent chunkSize hasSink true resp).outcome = runOutcome.errCorrupt ∨
         (run req body sent chunkSize hasSink true resp).outcome = runOutcome.okDone) :
    ((run req body sent chunkSize hasSink true resp).outcome = runOutcome.errCorrupt ↔
      metaDisagrees resp.Header resp.Body.length (measuredContent resp).length
        (toHex (sha256 resp.Body)) (toHex (sha256 (measuredContent resp))) = true) ∧
    ((run req body sent chunkSize hasSink true resp).outcome = runOutcome.errCorrupt →
      (run req body sent chunkSize hasSink true resp).retryable = true ∧
      (run req body sent chunkSize hasSink true resp).cs.ResponseLength =
        resp.Body.length ∧
      (run req body sent chunkSize hasSink true resp).cs.ResponseSha256 =
        toHex (sha256 resp.Body)) := by
  have hchar := run_verify_characterization req body sent chunkSize hasSink resp h
  rw [hchar] at h ⊢
  simp only at h ⊢
  have hiff := verifyStep_corrupt_iff resp.Header resp.Body.length
    (measuredContent resp).length (toHex (sha256 resp.Body))
    (toHex (sha256 (measuredContent resp))) (length_toHex_sha256 _) h
  constructor
  · exact hiff
  · intro hcor
    simp [hcor]

set_option maxRecDepth 1000000 in
/-- Witness for C2 at a concrete response with correct metadata (the
verification block is reached and succeeds). -/
theorem c2_verify_corrupt_iff_witness :
    ((run ⟨"https://q", "GET", []⟩ none [] 1024 true true
        ⟨200, "200 OK",
         [("x-amz-meta-content-length", "3"),
          ("x-amz-meta-content-sha256", toHex (sha256 [1, 2, 3]))],
         [1, 2, 3]⟩).outcome = runOutcome.errCorrupt ∨
     (run ⟨"https://q", "GET", []⟩ none [] 1024 true true
        ⟨200, "200 OK",
         [("x-amz-meta-content-length", "3"),
          ("x-amz-meta-content-sha256", toHex (sha256 [1, 2, 3]))],
         [1, 2, 3]⟩).outcome = runOutcome.okDone) ∧
    (((run ⟨"https://q", "GET", []⟩ none [] 1024 true true
        ⟨200, "200 OK",
         [("x-amz-meta-content-length", "3"),
          ("x-amz-meta-content-sha256", toHex (sha256 [1, 2, 3]))],
         [1, 2, 3]⟩).outcome = runOutcome.errCorrupt ↔
      metaDisagrees
        [("x-amz-meta-content-length", "3"),
         ("x-amz-meta-content-sha256", toHex (sha256 [1, 2, 3]))]
        ([1, 2, 3] : List Nat).length
        (measuredContent ⟨200, "200 OK",
          [("x-amz-meta-content-length", "3"),
           ("x-amz-meta-content-sha256", toHex (sha256 [1, 2, 3]))],
          [1, 2, 3]⟩).length
        (toHex (sha256 [1, 2, 3]))
        (toHex (sha256 (measuredContent ⟨200, "200 OK",
          [("x-amz-meta-content-length", "3"),
           ("x-amz-meta-content-sha256", toHex (sha256 [1, 2, 3]))],
          [1, 2, 3]⟩))) = true) ∧
    ((run ⟨"https://q", "GET", []⟩ none [] 1024 true true
        ⟨200, "200 OK",
         [("x-amz-meta-content-length", "3"),
          ("x-amz-meta-content-sha256", toHex (sha256 [1, 2, 3]))],
         [1, 2, 3]⟩).outcome = runOutcome.errCorrupt →
      (run ⟨"https://q", "GET", []⟩ none [] 1024 true true
        ⟨200, "200 OK",
         [("x-amz-meta-content-length", "3"),
          ("x-amz-meta-content-sha256", toHex (sha256 [1, 2, 3]))],
         [1, 2, 3]⟩).retryable = true ∧
      (run ⟨"https://q", "GET", []⟩ none [] 1024 true true
        ⟨200, "200 OK",
         [("x-amz-meta-content-length", "3"),
          ("x-amz-meta-content-sha256", toHex (sha256 [1, 2, 3]))],
         [1, 2, 3]⟩).cs.ResponseLength = ([1, 2, 3] : List Nat).length ∧
      (run ⟨"https://q", "GET", []⟩ none [] 1024 true true
        ⟨200, "200 OK",
         [("x-amz-meta-content-length", "3"),
          ("x-amz-meta-content-sha256", toHex (sha256 [1, 2, 3]))],
         [1, 2, 3]⟩).cs.ResponseSha256 = toHex (sha256 [1, 2, 3]))) :=
  ⟨by decide,
   c2_verify_corrupt_iff ⟨"https://q", "GET", []⟩ none [] 1024 true
     ⟨200, "200 OK",
      [("x-amz-meta-content-length", "3"),
       ("x-amz-meta-content-sha256", toHex (sha256 [1, 2, 3]))],
      [1, 2, 3]⟩ (by decide)⟩

/-! ## Claim C4: retryable classification of run -/

/-- C4: the retryable classification of run, in the order the code checks:
an unparsable caller-supplied Content-Length is non-retryable; a supplied
Content-Length that differs from the bytes actually read is retryable; after
those, a 5xx status is retryable and a 4xx status is non-retryable, and in
both status cases the call summary is populated with the response status and
headers before returning. -/
theorem c4_retryable_classification :
    (∀ (req : request) (body : Option (List Nat)) (sent : List Nat) (chunkSize : Nat)
        (hasSink verify : Bool) (resp : httpResponse),
      (req.Header.any fun p => p.1 == "Content-Length") = true →
      parseInt64 (headerGet req.Header "Content-Length") = none →
      (run req body sent chunkSize hasSink verify resp).retryable = false ∧
      (run req body sent chunkSize hasSink verify resp).outcome = runOutcome.errParseCL) ∧
    (∀ (req : request) (bs sent : List Nat) (chunkSize : Nat)
        (hasSink verify : Bool) (resp : httpResponse) (n : Int),
      (req.Header.any fun p => p.1 == "Content-Length") = true →
      parseInt64 (headerGet req.Header "Content-Length") = some n →
      n ≠ (sent.length : Int) →
      (run req (some bs) sent chunkSize hasSink verify resp).retryable = true ∧
      (run req (some bs) sent chunkSize hasSink verify resp).outcome =
        runOutcome.errCLMismatch) ∧
    (∀ (req : request) (body : Option (List Nat)) (sent : List Nat) (chunkSize : Nat)
        (hasSink verify : Bool) (resp : httpResponse),
      ¬((req.Header.any fun p => p.1 == "Content-Length") = true ∧
        parseInt64 (headerGet req.Header "Content-Length") = none) →
      ¬((req.Header.any fun p => p.1 == "Content-Length") = true ∧
        ¬(parseInt64 (headerGet req.Header "Content-Length")).getD 0 =
          (sentLen body sent : Int)) →
      500 ≤ resp.StatusCode →
      (run req body sent chunkSize hasSink verify resp).retryable = true ∧
      (run req body sent chunkSize hasSink verify resp).outcome = runOutcome.err5xx ∧
      (run req body sent chunkSize hasSink verify resp).cs.StatusCode = resp.StatusCode ∧
      (run req body sent chunkSize hasSink verify resp).cs.Status = resp.Status ∧
      (run req body sent chunkSize hasSink verify resp).cs.ResponseHeader = resp.Header) ∧
    (∀ (req : request) (body : Option (List Nat)) (sent : List Nat) (chunkSize : Nat)
        (hasSink verify : Bool) (resp : httpResponse),
      ¬((req.Header.any fun p => p.1 == "Content-Length") = true ∧
        parseInt64 (headerGet req.Header "Content-Length") = none) →
      ¬((req.Header.any fun p => p.1 == "Content-Length") = true ∧
        ¬(parseInt64 (headerGet req.Header "Content-Length")).getD 0 =
          (sentLen body sent : Int)) →
      400 ≤ resp.StatusCode → resp.StatusCode < 500 →
      (run req body sent chunkSize hasSink verify resp).retryable = false ∧
      (run req body sent chunkSize hasSink verify resp).outcome = runOutcome.err4xx ∧
      (run req body sent chunkSize hasSink verify resp).cs.StatusCode = resp.StatusCode ∧
      (run req body sent chunkSize hasSink verify resp).cs.Status = resp.Status ∧
      (run req body sent chunkSize hasSink verify resp).cs.ResponseHeader = resp.Header) := by
  refine ⟨?_, ?_, ?_, ?_⟩
  · intro req body sent chunkSize hasSink verify resp h1 h2
    simp only [run]
    rw [if_pos ⟨h1, h2⟩]
    exact ⟨rfl, rfl⟩
  · intro req bs sent chunkSize hasSink verify resp n h1 h2 h3
    simp only [run]
    rw [if_neg (by simp [h1, h2]), if_pos ⟨h1, by simp [h2, sentLen]; exact h3⟩]
    exact ⟨rfl, rfl⟩
  · intro req body sent chunkSize hasSink verify resp h1 h2 h5
    simp only [run]
    rw [if_neg h1, if_neg h2, if_pos h5]
    exact ⟨rfl, rfl, rfl, rfl, rfl⟩
  · intro req body sent chunkSize hasSink verify resp h1 h2 h4 h5
    simp only [run]
    rw [if_neg h1, if_neg h2, if_neg (by omega), if_pos h4]
    exact ⟨rfl, rfl, rfl, rfl, rfl⟩

set_option maxRecDepth 1000000 in
/-- Witness for C4: each of the four classifications at a concrete input. -/
theorem c4_retryable_classification_witness :
    (((⟨"u", "GET", [("Content-Length", "abc")]⟩ : request).Header.any
        fun p => p.1 == "Content-Length") = true ∧
      parseInt64 (headerGet [("Content-Length", "abc")] "Content-Length") = none ∧
      (run ⟨"u", "GET", [("Content-Length", "abc")]⟩ none [] 1024 false false
        ⟨200, "200 OK", [], []⟩).retryable = false ∧
      (run ⟨"u", "GET", [("Content-Length", "abc")]⟩ none [] 1024 false false
        ⟨200, "200 OK", [], []⟩).outcome = runOutcome.errParseCL) ∧
    (parseInt64 (headerGet [("Content-Length", "5")] "Content-Length") = some 5 ∧
      (5 : Int) ≠ (([7] : List Nat).length : Int) ∧
      (run ⟨"u", "PUT", [("Content-Length", "5")]⟩ (some [7]) [7] 1024 false false
        ⟨200, "200 OK", [], []⟩).retryable = true ∧
      (run ⟨"u", "PUT", [("Content-Length", "5")]⟩ (some [7]) [7] 1024 false false
        ⟨200, "200 OK", [], []⟩).outcome = runOutcome.errCLMismatch) ∧
    (500 ≤ 503 ∧
      (run ⟨"u", "GET", []⟩ none [] 1024 false false
        ⟨503, "503 Service Unavailable", [("a", "b")], [9]⟩).retryable = true ∧
      (run ⟨"u", "GET", []⟩ none [] 1024 false false
        ⟨503, "503 Service Unavailable", [("a", "b")], [9]⟩).cs.StatusCode = 503 ∧
      (run ⟨"u", "GET", []⟩ none [] 1024 false false
        ⟨503, "503 Service Unavailable", [("a", "b")], [9]⟩).cs.ResponseHeader =
          [("a", "b")]) ∧
    (400 ≤ 404 ∧ 404 < 500 ∧
      (run ⟨"u", "GET", []⟩ none [] 1024 false false
        ⟨404, "404 Not Found", [("a", "b")], [9]⟩).retryable = false ∧
      (run ⟨"u", "GET", []⟩ none [] 1024 false false
        ⟨404, "404 Not Found", [("a", "b")], [9]⟩).cs.StatusCode = 404 ∧
      (run ⟨"u", "GET", []⟩ none [] 1024 false false
        ⟨404, "404 Not Found", [("a", "b")], [9]⟩).cs.ResponseHeader = [("a", "b")]) := by
  refine ⟨⟨by decide, by decide, ?_⟩, ⟨by decide, by decide, ?_⟩, ⟨by decide, ?_⟩,
    ⟨by decide, by decide, ?_⟩⟩
  · exact c4_retryable_classification.1 ⟨"u", "GET", [("Content-Length", "abc")]⟩
      none [] 1024 false false ⟨200, "200 OK", [], []⟩ (by decide) (by decide)
  · exact c4_retryable_classification.2.1 ⟨"u", "PUT", [("Content-Length", "5")]⟩
      [7] [7] 1024 false false ⟨200, "200 OK", [], []⟩ 5 (by decide) (by decide) (by decide)
  · have h := c4_retryable_classification.2.2.1 ⟨"u", "GET", []⟩ none [] 1024 false false
      ⟨503, "503 Service Unavailable", [("a", "b")], [9]⟩ (by decide) (by decide) (by decide)
    exact ⟨h.1, h.2.2.1, h.2.2.2.2⟩
  · have h := c4_retryable_classification.2.2.2 ⟨"u", "GET", []⟩ none [] 1024 false false
      ⟨404, "404 Not Found", [("a", "b")], [9]⟩ (by decide) (by decide) (by decide) (by decide)
    exact ⟨h.1, h.2.2.1, h.2.2.2.2⟩

/-! ## Claim C10: request digest fields for nil-body runs -/

set_option maxRecDepth 1000000 in
/-- C10 counterexample: a nil-body run whose Content-Length header does not
parse returns before the request digest fields are populated (request.go
returns at line 204, before lines 211-213), so RequestSha256 is the empty
string, not the digest of the empty byte stream. -/
theorem c10_counterexample :
    (run ⟨"https://q", "GET", [("Content-Length", "abc")]⟩ none [] 1024 false false
      ⟨200, "200 OK", [], []⟩).cs.RequestSha256 = "" ∧
    ¬((run ⟨"https://q", "GET", [("Content-Length", "abc")]⟩ none [] 1024 false false
      ⟨200, "200 OK", [], []⟩).cs.RequestSha256 =
      "e3b0c44298fc1c149afbf4c8996fb92427ae41e4649b934ca495991b7852b855") := by
  constructor
  · decide
  · decide

set_option maxRecDepth 1000000 in
/-- C10 (amended): every nil-body run that proceeds past Content-Length
parsing (the header, when present, parses as a 64-bit integer) returns a
call summary with RequestLength 0 and RequestSha256 equal to the hex SHA-256
of the empty byte stream. -/
theorem c10_nil_body_request_digest (req : request) (sent : List Nat)
    (chunkSize : Nat) (hasSink verify : Bool) (resp : httpResponse)
    (h : ¬((req.Header.any fun p => p.1 == "Content-Length") = true ∧
        parseInt64 (headerGet req.Header "Content-Length") = none)) :
    (run req none sent chunkSize hasSink verify resp).cs.RequestLength = 0 ∧
    (run req none sent chunkSize hasSink verify resp).cs.RequestSha256 =
      "e3b0c44298fc1c149afbf4c8996fb92427ae41e4649b934ca495991b7852b855" := by
  have hhex : toHex (sha256 []) =
      "e3b0c44298fc1c149afbf4c8996fb92427ae41e4649b934ca495991b7852b855" := by decide
  simp only [run]
  rw [if_neg h]
  by_cases g2 : (req.Header.any fun p => p.1 == "Content-Length") = true ∧
      ¬(parseInt64 (headerGet req.Header "Content-Length")).getD 0 = (sentLen none sent : Int)
  · rw [if_pos g2]
    exact ⟨rfl, hhex⟩
  · rw [if_neg g2]
    by_cases g3 : 500 ≤ resp.StatusCode
    · rw [if_pos g3]
      exact ⟨rfl, hhex⟩
    · rw [if_neg g3]
      by_cases g4 : 400 ≤ resp.StatusCode
      · rw [if_pos g4]
        exact ⟨rfl, hhex⟩
      · rw [if_neg g4]
        by_cases g5 : ¬(trimStr (headerGet resp.Header "content-encoding") = "" ∨
            trimStr (headerGet resp.Header "content-encoding") = "identity" ∨
            trimStr (headerGet resp.Header "content-encoding") = "gzip")
        · rw [if_pos g5]
          exact ⟨rfl, hhex⟩
        · rw [if_neg g5]
          by_cases g6 : trimStr (headerGet resp.Header "content-encoding") = "gzip" ∧
              ¬gzipHeaderOk resp.Body = true
          · rw [if_pos g6]
            exact ⟨rfl, hhex⟩
          · rw [if_neg g6]
            by_cases g7 : verify = true
            · rw [if_pos g7]
              rcases verifyStep_mem resp.Header resp.Body.length (measuredContent resp).length
                (toHex (sha256 resp.Body)) (toHex (sha256 (measuredContent resp))) with
                hv | hv | hv | hv
              · rw [if_pos hv]
                exact ⟨rfl, hhex⟩
              · rw [if_neg (by simp [hv]), if_pos hv]
                exact ⟨rfl, hhex⟩
              · rw [if_neg (by simp [hv]), if_neg (by simp [hv]), if_pos hv]
                exact ⟨rfl, hhex⟩
              · rw [if_neg (by simp [hv]), if_neg (by simp [hv]), if_neg (by simp [hv])]
                exact ⟨rfl, hhex⟩
            · rw [if_neg g7]
              exact ⟨rfl, hhex⟩

set_option maxRecDepth 1000000 in
/-- Witness for C10 (amended) at a concrete nil-body GET. -/
theorem c10_nil_body_request_digest_witness :
    ¬(((⟨"https://q", "GET", []⟩ : request).Header.any
        fun p => p.1 == "Content-Length") = true ∧
      parseInt64 (headerGet ([] : List (String × String)) "Content-Length") = none) ∧
    ((run ⟨"https://q", "GET", []⟩ none [] 1024 false false
        ⟨200, "200 OK", [], [5]⟩).cs.RequestLength = 0 ∧
     (run ⟨"https://q", "GET", []⟩ none [] 1024 false false
        ⟨200, "200 OK", [], [5]⟩).cs.RequestSha256 =
       "e3b0c44298fc1c149afbf4c8996fb92427ae41e4649b934ca495991b7852b855") :=
  ⟨by decide,
   c10_nil_body_request_digest ⟨"https://q", "GET", []⟩ [] 1024 false false
     ⟨200, "200 OK", [], [5]⟩ (by decide)⟩

/-! ## Claim C6: the bounded body stream -/

theorem readToEndF_spec : ∀ (f : Nat) (b : body) (n : Nat), b.remaining < f → 0 < n →
    b.pos + b.remaining ≤ b.backing.length →
    readToEndF f b n = ((b.backing.drop b.pos).take b.remaining,
      { b with pos := b.pos + b.remaining, remaining := 0 }) := by
  intro f
  induction f with
  | zero =>
    intro b n hf
    omega
  | succ f ih =>
    intro b n hf hn hlen
    by_cases hr : b.remaining = 0
    · simp only [readToEndF, body.Read]
      rw [hr]
      simp only [Nat.min_zero, List.take_zero, List.length_nil, if_pos rfl]
      cases b with
      | mk backing pos o sz rem => simp_all
    · have hcap : min n b.remaining ≤ b.remaining := Nat.min_le_right _ _
      have hcap1 : 0 < min n b.remaining := by
        rcases Nat.eq_zero_or_pos (min n b.remaining) with h0 | h0
        · exfalso
          rcases Nat.min_eq_zero_iff.mp h0 with h1 | h1 <;> omega
        · exact h0
      have htlen : ((b.backing.drop b.pos).take (min n b.remaining)).length =
          min n b.remaining := by
        rw [List.length_take, List.length_drop]
        omega
      simp only [readToEndF, body.Read]
      rw [htlen, if_neg (by omega)]
      have hrec := ih ⟨b.backing, b.pos + min n b.remaining, b.Offset, b.Size,
          b.remaining - min n b.remaining⟩ n (by simp; omega) hn (by simp; omega)
      simp only at hrec
      rw [hrec]
      simp only [Prod.mk.injEq]
      constructor
      · have hsplit : b.remaining = min n b.remaining + (b.remaining - min n b.remaining) := by
          omega
        conv_rhs => rw [hsplit]
        rw [List.take_add]
        congr 1
        rw [List.drop_drop]
        try congr 2
        try omega
      · have harith : b.pos + min n b.remaining + (b.remaining - min n b.remaining) =
            b.pos + b.remaining := by omega
        rw [harith]

theorem reset_idem (b : body) : (body.Reset (body.Reset b)) = body.Reset b := rfl

/-- C6: constructing a bounded body with size 0 fails; for a source holding
at least offset+size bytes, reading the constructed body to EOF through any
positive buffer yields exactly the size bytes of the source starting at the
offset, after which reads return no bytes (EOF); resetting and re-reading
yields the same bytes again, and Reset is idempotent. -/
theorem c6_bounded_stream (src : List Nat) (offset size bufSize : Nat)
    (hlen : offset + size ≤ src.length) (hbuf : 0 < bufSize) :
    (newBody src offset 0 = Except.error "cannot specify a size of 0") ∧
    (∀ b, newBody src offset size = Except.ok b →
      (readToEnd b bufSize).1 = (src.drop offset).take size ∧
      ((readToEnd b bufSize).1).length = size ∧
      (∀ n, (((readToEnd b bufSize).2).Read n).1 = []) ∧
      (readToEnd (body.Reset ((readToEnd b bufSize).2)) bufSize).1 =
        (src.drop offset).take size ∧
      body.Reset (body.Reset b) = body.Reset b) := by
  constructor
  · rfl
  · intro b hb
    have hsz : ¬size = 0 := by
      intro h0
      rw [h0] at hb
      simp [newBody] at hb
    have hbeq : b = ⟨src, offset, offset, size, size⟩ := by
      simp [newBody, hsz, body.Reset] at hb
      exact hb.symm
    subst hbeq
    have hspec := readToEndF_spec (size + 1) ⟨src, offset, offset, size, size⟩ bufSize
      (by simp) hbuf (by simpa using hlen)
    have hread : readToEnd ⟨src, offset, offset, size, size⟩ bufSize =
        ((src.drop offset).take size, ⟨src, offset + size, offset, size, 0⟩) := by
      rw [readToEnd]
      exact hspec
    refine ⟨by rw [hread], ?_, ?_, ?_, rfl⟩
    · rw [hread]
      simp only [List.length_take, List.length_drop]
      omega
    · intro n
      rw [hread]
      simp [body.Read]
    · rw [hread]
      show (readToEnd ⟨src, offset, offset, size, size⟩ bufSize).1 = _
      rw [hread]

/-- Witness for C6 at a concrete source, offset and size. -/
theorem c6_bounded_stream_witness :
    (1 + 2 ≤ ([0, 1, 2, 3, 4] : List Nat).length ∧ 0 < 1) ∧
    ((newBody [0, 1, 2, 3, 4] 1 0 = Except.error "cannot specify a size of 0") ∧
     (∀ b, newBody [0, 1, 2, 3, 4] 1 2 = Except.ok b →
       (readToEnd b 1).1 = (([0, 1, 2, 3, 4] : List Nat).drop 1).take 2 ∧
       ((readToEnd b 1).1).length = 2 ∧
       (∀ n, (((readToEnd b 1).2).Read n).1 = []) ∧
       (readToEnd (body.Reset ((readToEnd b 1).2)) 1).1 =
         (([0, 1, 2, 3, 4] : List Nat).drop 1).take 2 ∧
       body.Reset (body.Reset b) = body.Reset b)) :=
  ⟨⟨by decide, by decide⟩, c6_bounded_stream [0, 1, 2, 3, 4] 1 2 1 (by decide) (by decide)⟩

/-! ## Claim C5: download ignores the storage-type header (code bug) -/

set_option maxRecDepth 1000000 in
/-- C5 evaluation: the download path never consults
x-taskcluster-artifact-storage-type.  For an error artifact served directly
(status 200 with the storage-type header set to error), download returns
ErrExpectedRedirect and writes nothing to the caller sink, instead of copying
the body to the sink and returning ErrErr as the spec and the test suite
(interface_test.go line 122) expect; and for a reference artifact served via
redirect, the second GET is run with verify=true, so a Location target
without x-amz-meta headers fails as Corrupt instead of being fetched without
hash verification. -/
theorem c5_download_ignores_storage_type :
    headerGet [("x-taskcluster-artifact-storage-type", "error")]
      "x-taskcluster-artifact-storage-type" = "error" ∧
    download "https://queue.example/artifact" (some 0) 1024 false
      ⟨200, "200 OK", [("x-taskcluster-artifact-storage-type", "error")], [101, 114, 114]⟩
      ⟨200, "200 OK", [], []⟩ =
      ⟨downloadOutcome.errExpectedRedirect, []⟩ ∧
    download "https://queue.example/artifact" (some 0) 1024 false
      ⟨303, "303 See Other",
        [("x-taskcluster-artifact-storage-type", "reference"),
         ("Location", "https://r.example/x")], []⟩
      ⟨200, "200 OK", [], [7, 8]⟩ =
      ⟨downloadOutcome.errSecondRun runOutcome.errCorrupt, [7, 8]⟩ := by
  refine ⟨by decide, by decide, by decide⟩

/-! ## Claim C8: upload sniffing step (code bug) -/

/-- C8 evaluation: the sniffing step of Upload fails on a zero-length input
(the read returns io.EOF, which interface.go lines 122-125 treat as fatal)
instead of tolerating the graceful EOF; and on a nonempty input it leaves
the input at position min(512, length) - the code at interface.go line 126
seeks the staging output, not the input, back to 0, despite its comment -
so the input is not at offset 0 when preparation is entered (preparation
itself rewinds it, masking the slip). -/
theorem c8_upload_sniff_step :
    uploadMimeStep [] 0 = Except.error "reading 512 bytes to determine mime type: EOF" ∧
    uploadMimeStep [42] 0 = Except.ok (1, 0) ∧
    (1 : Nat) ≠ 0 := by
  refine ⟨rfl, rfl, by decide⟩

end Artifact
